import Mathlib

/-!
Verification of the DEM project-record store of the IACHAT repository
(`FIN3/app/chat_handler.py`, with the `DEM/app/chat_handler.py` variant
where noted).  Python strings are modelled as lists of characters,
Python dicts holding project records as a structure with `Option` fields
(`none` = key absent), and the ambient clock / parser / LLM calls as an
explicit environment record, so that every definition is executable.
-/

namespace IACHAT

/-- A Python `str`, modelled as its sequence of characters. -/
abbrev Str := List Char

/-- Whitespace recognised by Python's `str.strip()` (the subset that can
occur in this application's data). -/
def pyIsSpace (c : Char) : Bool :=
  c = ' ' || c = '\t' || c = '\n' || c = '\r' || c = '\x0b' || c = '\x0c'

/-- Python `str.lstrip()`. -/
def plstrip (s : Str) : Str := s.dropWhile pyIsSpace

/-- Python `str.rstrip()`. -/
def prstrip (s : Str) : Str := (s.reverse.dropWhile pyIsSpace).reverse

/-- Python `str.strip()`. -/
def pstrip (s : Str) : Str := prstrip (plstrip s)

/-- Truthiness of an optional string field: `None`/absent and `""` are falsy. -/
def truthyStr (v : Option Str) : Bool :=
  match v with
  | none => false
  | some s => s ≠ []

/-- Python `a or b` on two optional string fields (`b` is returned whenever
`a` is falsy, whether or not `b` itself is truthy). -/
def orStr (a b : Option Str) : Option Str := if truthyStr a then a else b

/-- Truthiness of an optional boolean field (absent counts as false). -/
def truthyBool (v : Option Bool) : Bool := v.getD false

/-- Python `str(x)` on an optional string (`str(None) = "None"`). -/
def pyStr (v : Option Str) : Str :=
  match v with
  | some s => s
  | none => "None".toList

/-- Python `str(n)` for an integer. -/
def intRepr (n : Int) : Str :=
  if n < 0 then '-' :: Nat.toDigits 10 (-n).toNat else Nat.toDigits 10 n.toNat

/-- Python `str(x)` on an optional integer (`str(None) = "None"`). -/
def pyStrInt (v : Option Int) : Str :=
  match v with
  | some n => intRepr n
  | none => "None".toList

/-- Index of the first occurrence of `pat` in `hay`
(Python `hay.find(pat)`, with `none` for `-1`). -/
def findSub (pat : Str) : Str → Option Nat
  | [] => if pat.isPrefixOf ([] : Str) then some 0 else none
  | c :: t =>
      if pat.isPrefixOf (c :: t) then some 0
      else (findSub pat t).map (fun n => n + 1)

/-- The separator `"] — "` used between a bracketed timestamp and the note
body (4 characters, the dash being U+2014). -/
def notePat : Str := "] — ".toList

/-- `_clean_note_text`: strips the text and, when it starts with `"["` and
contains `"] — "`, keeps only what follows the first occurrence of that
separator, with leading whitespace removed. -/
def cleanNoteText (raw : Str) : Str :=
  if raw = [] then []
  else
    let txt := pstrip raw
    if ['['].isPrefixOf txt then
      match findSub notePat txt with
      | some e => plstrip (txt.drop (e + 4))
      | none => txt
    else txt

/-- A stored note: either a dict `{text, date}` or a legacy plain string. -/
inductive NoteV where
  | dict (text : Option Str) (date : Option Str)
  | str (s : Str)
deriving DecidableEq, Repr

/-- `_format_note`: renders a note with its date, cleaning the text so the
date is not duplicated. -/
def formatNote : NoteV → Str
  | NoteV.dict text date =>
      let t := cleanNoteText (text.getD [])
      if truthyStr date then
        if t ≠ [] then ('[' :: date.getD []) ++ notePat ++ t
        else ('[' :: date.getD []) ++ [']']
      else t
  | NoteV.str s => cleanNoteText s

/-- An attached-document summary entry. -/
structure Doc where
  filename : Option Str
  summary : Option Str
  date : Option Str
deriving DecidableEq, Repr

/-- The stored `documents` value: absent, present but not a list, or a list. -/
inductive DocsVal where
  | absent
  | notList
  | list (l : List Doc)
deriving DecidableEq, Repr

/-- A DEM project record (one dict of the persisted JSON collection).
`none` models an absent key; raw stored records are missing the derived
keys, which `enrich_dem` adds. -/
structure Dem where
  id : Option Str := none
  name : Option Str := none
  sponsor : Option Str := none
  requester : Option Str := none
  ba_owner : Option Str := none
  title : Option Str := none
  change_request : Option Str := none
  cost_center : Option Str := none
  status : Option Str := none
  workflow_status : Option Str := none
  current_owner : Option Str := none
  start_date : Option Str := none
  priority : Option Str := none
  doc_summary : Option Str := none
  created_at : Option Str := none
  updated_at : Option Str := none
  notes : Option (List NoteV) := none
  documents : DocsVal := DocsVal.absent
  archived : Option Bool := none
  duration_days : Option (Option Int) := none
  last_note : Option Str := none
  sla_breached : Option Bool := none
deriving DecidableEq, Repr

instance : Inhabited Dem := ⟨{}⟩

/-- The ambient state of one request: the UTC clock in its several
renderings, the datetime parsers, and the outcome of the external LLM
call (`none` = the call raised). -/
structure Env where
  nowSec : Int
  nowDay : Int
  nowIso : Str
  nowDateMin : Str
  nowHuman : Str
  nowMs : Int
  parseIso : Str → Option Int
  parseDate : Str → Option Int
  parseDateSec : Str → Option Int
  aiComment : Dem → Option Str

/-- The per-note normalization inside `enrich_dem`: the text of a dict
note is cleaned in place, a legacy string note is cleaned directly. -/
def cleanNote (n : NoteV) : NoteV :=
  match n with
  | NoteV.dict t d => NoteV.dict (some (cleanNoteText (t.getD []))) d
  | NoteV.str s => NoteV.str (cleanNoteText s)

/-- `enrich_dem`: adds the derived fields `duration_days`, `last_note`,
`sla_breached`, `archived`, `priority`, `documents`, and cleans the note
texts. -/
def enrichDem (env : Env) (dem : Dem) : Dem :=
  let rawNotes := dem.notes.getD []
  let cleanedNotes := rawNotes.map cleanNote
  let durationDays : Option Int :=
    match dem.start_date with
    | some sd =>
        if sd ≠ [] then (env.parseDate sd).map (fun d => env.nowDay - d)
        else none
    | none => none
  let lastNote : Str :=
    match cleanedNotes.getLast? with
    | some n => formatNote n
    | none => []
  let updatedStr : Option Str := orStr dem.updated_at dem.created_at
  let slaBreached : Bool :=
    if truthyStr updatedStr then
      match env.parseIso (updatedStr.getD []) with
      | some t => decide (env.nowSec - t > 5 * 86400)
      | none => false
    else false
  { dem with
      notes := some cleanedNotes
      duration_days := some durationDays
      last_note := some lastNote
      sla_breached := some slaBreached
      archived := some (dem.archived.getD false)
      priority := if truthyStr dem.priority then dem.priority else some ("2".toList)
      documents :=
        match dem.documents with
        | DocsVal.list l => DocsVal.list l
        | _ => DocsVal.list [] }

/-- `generate_ai_comment`: asks the LLM for a one-line highlight; any
failure of the external call yields a fixed placeholder string. -/
def generateAiComment (env : Env) (dem : Dem) : Str :=
  match env.aiComment dem with
  | some s => pstrip s
  | none => "No AI comment available.".toList

/-- The text-bearing key of a note dict, as read by `notes[-1]["text"]`
(`none` models the `KeyError`/`TypeError` the Python code would raise on a
malformed note). -/
def noteTextKey : NoteV → Option Str
  | NoteV.dict t _ => some (t.getD [])
  | NoteV.str _ => none

/-- The date key of a note dict, as read by `notes[-1]["date"]`. -/
def noteDateKey : NoteV → Option Str
  | NoteV.dict _ d => some (d.getD [])
  | NoteV.str _ => none

/-- The data content of one per-record block of the HTML report. -/
structure HtmlDetail where
  pid : Str
  name : Str
  status : Str
  workflow : Str
  priority : Str
  owner : Str
  lastNote : Option Str
  lastDate : Option Str
  aiComment : Str
deriving Repr

/-- The data content of the HTML report produced by
`build_portfolio_html`: the generation stamp, the three dashboard counts,
and one detail block per record given. -/
structure HtmlReport where
  generated : Str
  activeCount : Nat
  p1Count : Nat
  slaCount : Nat
  details : List HtmlDetail
deriving Repr

/-- One detail block of the HTML report, read off the raw record `p`. -/
def htmlDetailOf (env : Env) (p : Dem) : HtmlDetail :=
  let notes := p.notes.getD []
  { pid := p.id.getD ("N/A".toList)
    name := p.name.getD ("Untitled".toList)
    status := p.status.getD ("Unknown".toList)
    workflow := p.workflow_status.getD ("Unknown".toList)
    priority := p.priority.getD ("4".toList)
    owner := p.current_owner.getD ("Unassigned".toList)
    lastNote :=
      match notes.getLast? with
      | some n => noteTextKey n
      | none => some ("No notes available.".toList)
    lastDate :=
      match notes.getLast? with
      | some n => noteDateKey n
      | none => some ("N/A".toList)
    aiComment := generateAiComment env p }

/-- `build_portfolio_html`: counts and details are computed over exactly
the record sequence it is handed (it performs no enrichment itself). -/
def buildPortfolioHtml (env : Env) (projects : List Dem) : HtmlReport :=
  { generated := env.nowDateMin
    activeCount := projects.length
    p1Count := projects.countP (fun p => pyStr p.priority = "1".toList)
    slaCount := projects.countP (fun p => truthyBool p.sla_breached)
    details := projects.map (htmlDetailOf env) }

/-- `dem_report` (`POST /api/dems/report`): loads the store, keeps the
non-archived records, and hands those raw records to
`build_portfolio_html`. -/
def demReport (env : Env) (store : List Dem) : HtmlReport :=
  buildPortfolioHtml env (store.filter (fun d => !truthyBool d.archived))

/-- A row of 78 dashes, the separator line of the TXT report. -/
def sep78 : Str := List.replicate 78 '-'

/-- Tallies `status_counts`: occurrence counts keyed by status in
first-seen order (Python dict insertion order). -/
def bumpStatus (m : List (Str × Nat)) (k : Str) : List (Str × Nat) :=
  match m with
  | [] => [(k, 1)]
  | (k0, c0) :: rest =>
      if k0 = k then (k0, c0 + 1) :: rest else (k0, c0) :: bumpStatus rest k

/-- The status of a record as tallied by the resume section
(`e.get("status") or "N/A"`). -/
def statusOrNA (e : Dem) : Str :=
  if truthyStr e.status then e.status.getD [] else "N/A".toList

/-- Stable insertion keeping descending counts (Python
`sorted(..., key=count, reverse=True)` is stable). -/
def insDesc (x : Str × Nat) : List (Str × Nat) → List (Str × Nat)
  | [] => [x]
  | y :: t => if y.2 > x.2 then y :: insDesc x t else x :: y :: t

/-- Stable descending sort by count. -/
def sortDescByCount : List (Str × Nat) → List (Str × Nat)
  | [] => []
  | x :: t => insDesc x (sortDescByCount t)

/-- The priority bucket string used by the resume metrics
(`str(e.get("priority") or "2")`). -/
def priorityOr2 (e : Dem) : Str :=
  if truthyStr e.priority then e.priority.getD [] else "2".toList

/-- Number of enriched records falling in priority bucket `b`. -/
def priorityCount (enriched : List Dem) (b : Str) : Nat :=
  enriched.countP (fun e => priorityOr2 e = b)

/-- Number of enriched records whose `sla_breached` flag is truthy. -/
def slaBreachedCount (enriched : List Dem) : Nat :=
  enriched.countP (fun e => truthyBool e.sla_breached)

/-- The `• Most common DEM Status: ...` line (present iff the tally is
non-empty, i.e. iff there is at least one record). -/
def statusTopLines (enriched : List Dem) : List Str :=
  let counts := enriched.foldl (fun m e => bumpStatus m (statusOrNA e)) []
  if counts = [] then []
  else
    let top3 := (sortDescByCount counts).take 3
    let strs := top3.map (fun kv => kv.1 ++ ": ".toList ++ intRepr kv.2)
    let l : Str := "• Most common DEM Status: ".toList ++ List.intercalate (", ".toList) strs
    [l]

/-- The executive-resume metric lines of `build_portfolio_text`. -/
def resumeLines (enriched : List Dem) : List Str :=
  let l0 : Str := "Key portfolio metrics for active DEM projects:".toList
  let l1 : Str := "• Total active DEMs: ".toList ++ intRepr enriched.length
  let l2 : Str := "• Priority distribution:".toList
  let l3 : Str := "   – P1 (Critical): ".toList ++ intRepr (priorityCount enriched ("1".toList))
  let l4 : Str := "   – P2 (High): ".toList ++ intRepr (priorityCount enriched ("2".toList))
  let l5 : Str := "   – P3 (Medium): ".toList ++ intRepr (priorityCount enriched ("3".toList))
  let l6 : Str := "   – P4 (Low): ".toList ++ intRepr (priorityCount enriched ("4".toList))
  let ok := enriched.length - slaBreachedCount enriched
  let l7 : Str := "• SLA window (last 5 days): OK=".toList ++ intRepr ok
      ++ " | Breached=".toList ++ intRepr (slaBreachedCount enriched)
  [l0, l1, l2, l3, l4, l5, l6, l7] ++ statusTopLines enriched

/-- One overview entry (three lines) of the resume section. -/
def overviewBlock (e : Dem) : List Str :=
  let name := e.name.getD ("(no name)".toList)
  let status := e.status.getD ("-".toList)
  let workflow := e.workflow_status.getD ("-".toList)
  let pr := e.priority.getD ("2".toList)
  let latest :=
    match (e.notes.getD []).getLast? with
    | some n => formatNote n
    | none => "No recent notes registered.".toList
  let l0 : Str := "• ".toList ++ name ++ " — Status: ".toList ++ status
      ++ " | Workflow: ".toList ++ workflow ++ " | Priority: P".toList ++ pr
  let l1 : Str := "  Last update: ".toList ++ latest
  [l0, l1, []]

/-- The line head marking a per-record detail block. -/
def tagDEM : Str := "DEM: ".toList

/-- One per-record detail block of `build_portfolio_text`. -/
def detailBlock (e : Dem) : List Str :=
  let l0 : Str := tagDEM ++ e.name.getD ("(no name)".toList)
  let l1 : Str := "Project Title: ".toList ++ e.title.getD []
  let l2 : Str := "Sponsor: ".toList ++ e.sponsor.getD ("-".toList)
      ++ " | Requester: ".toList ++ e.requester.getD ("-".toList)
  let l3 : Str := "BA Owner: ".toList ++ e.ba_owner.getD ("-".toList)
      ++ " | Current Task Owner: ".toList ++ e.current_owner.getD ("-".toList)
  let l4 : Str := "Cost Center: ".toList ++ e.cost_center.getD ("-".toList)
  let l5 : Str := "Start Date: ".toList ++ e.start_date.getD ("-".toList)
      ++ " | Duration (days): ".toList ++ pyStrInt e.duration_days.join
  let l6 : Str := "DEM Status: ".toList ++ e.status.getD ("-".toList)
  let l7 : Str := "Workflow Status: ".toList ++ e.workflow_status.getD ("-".toList)
  let l8 : Str := "Priority (1–4): ".toList ++ e.priority.getD ("2".toList)
  let slaTxt : Str :=
    if truthyBool e.sla_breached then
      "SLA Breached — project requires immediate follow-up with Sponsor and IT lead.".toList
    else
      "SLA OK — project updated within acceptable window.".toList
  let l9 : Str := "SLA Status: ".toList ++ slaTxt
  let rawNotes := e.notes.getD []
  let noteLines : List Str :=
    if rawNotes ≠ [] then
      let formatted := rawNotes.map formatNote
      let lastTwo := formatted.drop (formatted.length - 2)
      let head : Str := "Last Notes (most recent entries):".toList
      head :: lastTwo.map (fun n => "- ".toList ++ n)
    else
      let l : Str := "Last Notes: (no notes registered)".toList
      [l]
  [l0, l1, l2, l3, l4, l5, l6, l7, l8, l9] ++ noteLines ++ [[], sep78, []]

/-- All lines of the non-empty portfolio report, in order. -/
def portfolioLines (env : Env) (dems : List Dem) : List Str :=
  let enriched := dems.map (enrichDem env)
  let header : Str := env.nowHuman ++ " — Andres Villanueva DEMS Report".toList
  let t1 : Str := "1. Projects Resume — Executive Overview".toList
  let ov : Str := "Active DEM overview (project name + latest comment):".toList
  let mid : Str := ("The following pages contain a detailed section per DEM, including "
      ++ "Project Title, Sponsor, BA Owner, Workflow Status, SLA condition and "
      ++ "the most recent notes captured during project follow-up.").toList
  let t2 : Str := "2. Projects Details".toList
  [header, [], t1, []] ++ resumeLines enriched
    ++ [[], ov, []]
    ++ (enriched.map overviewBlock).flatten
    ++ [sep78, [], mid, [], sep78, [], t2, []]
    ++ (enriched.map detailBlock).flatten

/-- The fixed sentence returned for an empty record sequence. -/
def noProjectsSentence : Str := "There are currently no DEM projects registered.".toList

/-- `build_portfolio_text`: the TXT report (lines joined by newlines), or
the fixed no-projects sentence on empty input. -/
def buildPortfolioText (env : Env) (dems : List Dem) : Str :=
  if dems = [] then noProjectsSentence
  else List.intercalate ['\n'] (portfolioLines env dems)

/-- Outcome of a mutating endpoint: the (possibly unchanged) persisted
collection and the HTTP-level result. -/
inductive Resp where
  | ok (project : Dem)
  | okDelete
  | errNotFound
  | errValidation (msg : Str)
deriving DecidableEq, Repr

/-- The scan inside `_update_dem`: finds the first record whose `id` key
equals `id`, applies the updater (which may raise), stamps `updated_at`,
and returns the new collection together with the enriched record.
`Except.error` models an exception escaping before `save_dems` runs. -/
def updScan (env : Env) (id : Str) (updater : Dem → Except Str Dem) :
    List Dem → Except Str (Option (List Dem × Dem))
  | [] => Except.ok none
  | d :: rest =>
      if d.id = some id then
        match updater d with
        | Except.error e => Except.error e
        | Except.ok d1 =>
            let d2 := { d1 with updated_at := some env.nowIso }
            Except.ok (some (d2 :: rest, enrichDem env d2))
      else
        (updScan env id updater rest).map
          (fun r => r.map (fun p => (d :: p.1, p.2)))

/-- `_update_dem`: on a match, the mutated collection is persisted and the
enriched record returned; on no match nothing is saved and `None` is
returned; an updater exception propagates with nothing saved. -/
def updateDem (env : Env) (store : List Dem) (id : Str)
    (updater : Dem → Except Str Dem) : Except Str (List Dem × Option Dem) :=
  match updScan env id updater store with
  | Except.error e => Except.error e
  | Except.ok none => Except.ok (store, none)
  | Except.ok (some (st, enr)) => Except.ok (st, some enr)

/-- `add_dem_note` (`POST /api/dems/projects/<id>/note`). -/
def addDemNote (env : Env) (store : List Dem) (id : Str) (text : Str) :
    List Dem × Resp :=
  let t := pstrip text
  if t = [] then
    (store, Resp.errValidation ("Nota vacía.".toList))
  else
    let cleanText := cleanNoteText t
    let updater : Dem → Except Str Dem := fun d =>
      let notes := d.notes.getD []
      Except.ok { d with notes := some (notes ++ [NoteV.dict (some cleanText) (some env.nowDateMin)]) }
    match updateDem env store id updater with
    | Except.error e => (store, Resp.errValidation e)
    | Except.ok (st, none) => (st, Resp.errNotFound)
    | Except.ok (st, some p) => (st, Resp.ok p)

/-- The message raised by an out-of-range note index. -/
def invalidIndexMsg : Str := "Invalid index".toList

/-- `edit_dem_note` (`POST /api/dems/projects/<id>/note/edit`): the
updater raises before touching anything when the index is out of range,
so nothing is saved in that case. -/
def editDemNote (env : Env) (store : List Dem) (id : Str)
    (index : Option Int) (text : Str) : List Dem × Resp :=
  let t := pstrip text
  if index = none ∨ t = [] then
    (store, Resp.errValidation ("Invalid index or empty text.".toList))
  else
    let idx := index.getD 0
    let cleanText := cleanNoteText t
    let updater : Dem → Except Str Dem := fun d =>
      let notes := d.notes.getD []
      if idx < 0 ∨ (notes.length : Int) ≤ idx then Except.error invalidIndexMsg
      else Except.ok { d with
        notes := some (notes.set idx.toNat (NoteV.dict (some cleanText) (some env.nowDateMin))) }
    match updateDem env store id updater with
    | Except.error e => (store, Resp.errValidation e)
    | Except.ok (st, none) => (st, Resp.errNotFound)
    | Except.ok (st, some p) => (st, Resp.ok p)

/-- `delete_dem_note` (`POST /api/dems/projects/<id>/note/delete`). -/
def deleteDemNote (env : Env) (store : List Dem) (id : Str)
    (index : Option Int) : List Dem × Resp :=
  if index = none then
    (store, Resp.errValidation ("Missing index".toList))
  else
    let idx := index.getD 0
    let updater : Dem → Except Str Dem := fun d =>
      let notes := d.notes.getD []
      if idx < 0 ∨ (notes.length : Int) ≤ idx then Except.error invalidIndexMsg
      else Except.ok { d with notes := some (notes.eraseIdx idx.toNat) }
    match updateDem env store id updater with
    | Except.error e => (store, Resp.errValidation e)
    | Except.ok (st, none) => (st, Resp.errNotFound)
    | Except.ok (st, some p) => (st, Resp.ok p)

/-- The payload of the field-update endpoint: `none` = key not present in
the request body. -/
structure FieldData where
  name : Option Str := none
  sponsor : Option Str := none
  requester : Option Str := none
  ba_owner : Option Str := none
  title : Option Str := none
  change_request : Option Str := none
  cost_center : Option Str := none
  status : Option Str := none
  workflow_status : Option Str := none
  current_owner : Option Str := none
  start_date : Option Str := none
  priority : Option Str := none
deriving DecidableEq, Repr

/-- The per-field assignment `d[field] = (data.get(field) or "").strip()`
performed for each key present in the request body. -/
def setField (present : Option Str) (old : Option Str) : Option Str :=
  match present with
  | none => old
  | some v => some (pstrip (if v = [] then [] else v))

/-- The updater of `update_dem` (the 12 editable fields; `id` is not among
them). -/
def fieldUpdater (data : FieldData) (d : Dem) : Dem :=
  { d with
      name := setField data.name d.name
      sponsor := setField data.sponsor d.sponsor
      requester := setField data.requester d.requester
      ba_owner := setField data.ba_owner d.ba_owner
      title := setField data.title d.title
      change_request := setField data.change_request d.change_request
      cost_center := setField data.cost_center d.cost_center
      status := setField data.status d.status
      workflow_status := setField data.workflow_status d.workflow_status
      current_owner := setField data.current_owner d.current_owner
      start_date := setField data.start_date d.start_date
      priority := setField data.priority d.priority }

/-- `update_dem` (`POST /api/dems/projects/<id>/update`). -/
def updateDemFields (env : Env) (store : List Dem) (id : Str)
    (data : FieldData) : List Dem × Resp :=
  match updateDem env store id (fun d => Except.ok (fieldUpdater data d)) with
  | Except.error e => (store, Resp.errValidation e)
  | Except.ok (st, none) => (st, Resp.errNotFound)
  | Except.ok (st, some p) => (st, Resp.ok p)

/-- `archive_dem`. -/
def archiveDem (env : Env) (store : List Dem) (id : Str) : List Dem × Resp :=
  match updateDem env store id (fun d => Except.ok { d with archived := some true }) with
  | Except.error e => (store, Resp.errValidation e)
  | Except.ok (st, none) => (st, Resp.errNotFound)
  | Except.ok (st, some p) => (st, Resp.ok p)

/-- `restore_dem`. -/
def restoreDem (env : Env) (store : List Dem) (id : Str) : List Dem × Resp :=
  match updateDem env store id (fun d => Except.ok { d with archived := some false }) with
  | Except.error e => (store, Resp.errValidation e)
  | Except.ok (st, none) => (st, Resp.errNotFound)
  | Except.ok (st, some p) => (st, Resp.ok p)

/-- The updater of `attach_doc`: appends a document entry and keeps the
latest summary in `doc_summary` (`summary` has already been resolved,
with the placeholder text substituted on LLM failure). -/
def attachUpdater (env : Env) (filename summary : Str) (d : Dem) : Dem :=
  let docs :=
    match d.documents with
    | DocsVal.list l => l
    | _ => []
  { d with
      documents := DocsVal.list (docs ++ [⟨some filename, some summary, some env.nowDateMin⟩])
      doc_summary := some summary }

/-- `attach_doc` (store-level part). -/
def attachDoc (env : Env) (store : List Dem) (id : Str)
    (filename summary : Str) : List Dem × Resp :=
  match updateDem env store id (fun d => Except.ok (attachUpdater env filename summary d)) with
  | Except.error e => (store, Resp.errValidation e)
  | Except.ok (st, none) => (st, Resp.errNotFound)
  | Except.ok (st, some p) => (st, Resp.ok p)

/-- `delete_dem_summary`. -/
def deleteDemSummary (env : Env) (store : List Dem) (id : Str) : List Dem × Resp :=
  match updateDem env store id (fun d => Except.ok { d with doc_summary := some [] }) with
  | Except.error e => (store, Resp.errValidation e)
  | Except.ok (st, none) => (st, Resp.errNotFound)
  | Except.ok (st, some p) => (st, Resp.ok p)

/-- `delete_dem` (`POST /api/dems/projects/<id>/delete`). -/
def deleteDem (store : List Dem) (id : Str) : List Dem × Resp :=
  let newStore := store.filter (fun d => d.id ≠ some id)
  if newStore.length = store.length then (store, Resp.errNotFound)
  else (newStore, Resp.okDelete)

/-- The create payload. -/
structure CreateData where
  name : Option Str := none
  sponsor : Option Str := none
  requester : Option Str := none
  ba_owner : Option Str := none
  title : Option Str := none
  change_request : Option Str := none
  cost_center : Option Str := none
  status : Option Str := none
  workflow_status : Option Str := none
  current_owner : Option Str := none
  start_date : Option Str := none
  priority : Option Str := none
  initial_note : Option Str := none
deriving DecidableEq, Repr

/-- `f"dem_{int(time.time() * 1000)}"`. -/
def genId (env : Env) : Str := "dem_".toList ++ intRepr env.nowMs

/-- `data.get(k, "").strip()`. -/
def getStrip (v : Option Str) : Str := pstrip (v.getD [])

/-- `data.get(k, "").strip() or dflt`. -/
def getStripOr (v : Option Str) (dflt : Str) : Str :=
  let s := getStrip v
  if s = [] then dflt else s

/-- The fresh record built by `create_dem` from the request payload. -/
def createRecord (env : Env) (data : CreateData) : Dem :=
  let initNote := getStrip data.initial_note
  let notes : List NoteV :=
    if initNote ≠ [] then
      [NoteV.dict (some (cleanNoteText initNote)) (some env.nowDateMin)]
    else []
  { id := some (genId env)
    name := some (getStrip data.name)
    sponsor := some (getStrip data.sponsor)
    requester := some (getStrip data.requester)
    ba_owner := some (getStrip data.ba_owner)
    title := some (getStrip data.title)
    change_request := some (getStrip data.change_request)
    cost_center := some (getStrip data.cost_center)
    status := some (getStripOr data.status ("Idea".toList))
    workflow_status := some (getStripOr data.workflow_status ("Intake".toList))
    current_owner := some (getStrip data.current_owner)
    start_date := some (getStrip data.start_date)
    priority := some (pstrip ((orStr data.priority (some ("2".toList))).getD []))
    notes := some notes
    documents := DocsVal.list []
    doc_summary := some []
    created_at := some env.nowIso
    updated_at := some env.nowIso
    archived := some false }

/-- `create_dem` (`POST /api/dems/projects`): builds the fresh record,
appends it to the collection and persists; returns the enriched record. -/
def createDem (env : Env) (store : List Dem) (data : CreateData) :
    List Dem × Dem :=
  (store ++ [createRecord env data], enrichDem env (createRecord env data))

/-- Ordered insert-or-replace of a Python dict keyed by id (replacement
keeps the original insertion position, as Python dicts do). -/
def upsert (m : List (Str × Dem)) (k : Str) (v : Dem) : List (Str × Dem) :=
  match m with
  | [] => [(k, v)]
  | (k0, v0) :: rest =>
      if k0 = k then (k0, v) :: rest else (k0, v0) :: upsert rest k v

/-- `import_dems_json` (store-level part): the current collection is
keyed by id (records with a falsy id are dropped), incoming records merge
over it by their stripped id, generating a fresh id when absent; the
merged dict's values are persisted. -/
def mergeDemsJson (env : Env) (store : List Dem) (incoming : List Dem) :
    List Dem :=
  let base := store.foldl
    (fun m d => if truthyStr d.id then upsert m (d.id.getD []) d else m) []
  let merged := incoming.foldl
    (fun m inc =>
      let pid0 := pstrip (inc.id.getD [])
      if pid0 = [] then
        let pid := genId env
        upsert m pid { inc with id := some pid }
      else upsert m pid0 inc)
    base
  merged.map (fun kv => kv.2)

/-- A public mutating operation of the DEM store API. -/
inductive Op where
  | create (data : CreateData)
  | fieldUpdate (id : Str) (data : FieldData)
  | addNote (id : Str) (text : Str)
  | editNote (id : Str) (index : Option Int) (text : Str)
  | delNote (id : Str) (index : Option Int)
  | archive (id : Str)
  | restore (id : Str)
  | attach (id : Str) (filename : Str) (summary : Str)
  | delSummary (id : Str)
  | deleteRec (id : Str)
  | imp (incoming : List Dem)

/-- The store after one public operation. -/
def applyOp (env : Env) (op : Op) (store : List Dem) : List Dem :=
  match op with
  | Op.create data => (createDem env store data).1
  | Op.fieldUpdate id data => (updateDemFields env store id data).1
  | Op.addNote id text => (addDemNote env store id text).1
  | Op.editNote id index text => (editDemNote env store id index text).1
  | Op.delNote id index => (deleteDemNote env store id index).1
  | Op.archive id => (archiveDem env store id).1
  | Op.restore id => (restoreDem env store id).1
  | Op.attach id f s => (attachDoc env store id f s).1
  | Op.delSummary id => (deleteDemSummary env store id).1
  | Op.deleteRec id => (deleteDem store id).1
  | Op.imp incoming => mergeDemsJson env store incoming

/-- The store after a sequence of operations, each with its own ambient
environment. -/
def runOps : List (Env × Op) → List Dem → List Dem
  | [], store => store
  | (env, op) :: rest, store => runOps rest (applyOp env op store)

/-- The id column of the store. -/
def idsOf (store : List Dem) : List (Option Str) := store.map (fun d => d.id)

/-- Store health: every record carries a truthy, strip-invariant id, and
no two records share an id. -/
def GoodStore (store : List Dem) : Prop :=
  (∀ d ∈ store, truthyStr d.id = true ∧ pstrip (d.id.getD []) = d.id.getD []) ∧
  (idsOf store).Nodup

/-- The freshness side conditions under which an operation keeps ids
unique: a created id must not already be present, and imported ids must
be strip-invariant. -/
def OpOk (env : Env) (op : Op) (store : List Dem) : Prop :=
  match op with
  | Op.create _ => some (genId env) ∉ idsOf store ∧ pstrip (genId env) = genId env
  | Op.imp incoming =>
      (∀ d ∈ incoming, truthyStr d.id = true → pstrip (d.id.getD []) = d.id.getD []) ∧
      pstrip (genId env) = genId env
  | _ => True

/-- Freshness along a whole run. -/
def RunOk : List (Env × Op) → List Dem → Prop
  | [], _ => True
  | (env, op) :: rest, store => OpOk env op store ∧ RunOk rest (applyOp env op store)

/-- The fixed header row of the Excel exports. -/
def excelHeader : List Str :=
  let h0 : Str := "ID".toList
  let h1 : Str := "Name".toList
  let h2 : Str := "Title".toList
  let h3 : Str := "Sponsor".toList
  let h4 : Str := "Requester".toList
  let h5 : Str := "BA Owner".toList
  let h6 : Str := "Cost Center".toList
  let h7 : Str := "Status".toList
  let h8 : Str := "Workflow Status".toList
  let h9 : Str := "Current Task Owner".toList
  let h10 : Str := "Start Date".toList
  let h11 : Str := "Duration Days".toList
  let h12 : Str := "SLA".toList
  let h13 : Str := "Last Note".toList
  [h0, h1, h2, h3, h4, h5, h6, h7, h8, h9, h10, h11, h12, h13]

/-- One spreadsheet cell value. -/
inductive Cell where
  | null
  | str (v : Str)
  | int (n : Int)
deriving DecidableEq, Repr

/-- Cell holding `dem.get(k)` for a string key. -/
def cellStr (v : Option Str) : Cell :=
  match v with
  | some s => Cell.str s
  | none => Cell.null

/-- Cell holding `dem.get("duration_days")`. -/
def cellDur (v : Option (Option Int)) : Cell :=
  match v.join with
  | some n => Cell.int n
  | none => Cell.null

/-- The SLA label cell, `"Breached"` / `"OK"`. -/
def cellSla (v : Option Bool) : Cell :=
  if truthyBool v then Cell.str ("Breached".toList) else Cell.str ("OK".toList)

/-- One data row of the Excel export (the fixed column order of
`export_active_excel`). -/
def excelRow (d : Dem) : List Cell :=
  [cellStr d.id, cellStr d.name, cellStr d.title, cellStr d.sponsor,
   cellStr d.requester, cellStr d.ba_owner, cellStr d.cost_center,
   cellStr d.status, cellStr d.workflow_status, cellStr d.current_owner,
   cellStr d.start_date, cellDur d.duration_days, cellSla d.sla_breached,
   cellStr d.last_note]

/-- `get_dems_filtered`: records whose truthiness-coerced `archived` flag
equals the argument, each enriched. -/
def getDemsFiltered (env : Env) (archived : Bool) (store : List Dem) : List Dem :=
  (store.filter (fun d => truthyBool d.archived = archived)).map (enrichDem env)

/-- `export_active_excel`: the header row followed by one row per
non-archived record. -/
def exportActiveExcel (env : Env) (store : List Dem) : List (List Cell) :=
  (excelHeader.map Cell.str) :: (getDemsFiltered env false store).map excelRow

/-- A note of the `DEM` variant (`{text, created_at}`). -/
structure DNote where
  text : Option Str
  created_at : Option Str
deriving DecidableEq, Repr

/-- A project record of the `DEM` variant (the fields `_enrich_project`
reads and writes). -/
structure DProj where
  start_date : Option Str := none
  updated_at : Option Str := none
  notes : Option (List DNote) := none
  duration_days : Option (Option Int) := none
  last_note : Option Str := none
  stale : Option Bool := none
deriving DecidableEq, Repr

/-- The `DEM` variant's timestamp parse: 10-character strings go through
`strptime("%Y-%m-%d")`, anything else through `fromisoformat`. -/
def dParse (env : Env) (s : Str) : Option Int :=
  if s.length = 10 then env.parseDateSec s else env.parseIso s

/-- `_enrich_project` of the `DEM` variant: `duration_days` from the full
timestamp difference, `last_note`, and the `stale` flag with an inclusive
5-day boundary and the fallback chain
`updated_at or last-note created_at or start_date`. -/
def enrichProject (env : Env) (p : DProj) : DProj :=
  let durationDays : Option Int :=
    if truthyStr p.start_date then
      (dParse env (p.start_date.getD [])).map
        (fun t => Int.fdiv (env.nowSec - t) 86400)
    else none
  let notes := p.notes.getD []
  let lastNoteText : Str :=
    match notes.getLast? with
    | some n => n.text.getD []
    | none => []
  let lastNoteTs : Option Str :=
    match notes.getLast? with
    | some n => n.created_at
    | none => none
  let updatedRaw : Option Str := orStr p.updated_at (orStr lastNoteTs p.start_date)
  let stale : Bool :=
    if truthyStr updatedRaw then
      match dParse env (updatedRaw.getD []) with
      | some t => decide (env.nowSec - t ≥ 5 * 86400)
      | none => false
    else false
  { p with
      duration_days := some durationDays
      last_note := some lastNoteText
      stale := some stale }

/-! ### Helper lemmas -/

theorem dropWhile_idem (p : Char → Bool) (l : Str) :
    (l.dropWhile p).dropWhile p = l.dropWhile p := by
  induction l with
  | nil => rfl
  | cons c t ih =>
      by_cases h : p c
      · simp only [List.dropWhile_cons, h, if_true]
        exact ih
      · simp only [List.dropWhile_cons, h, if_false]
        simp [List.dropWhile_cons, h]

theorem plstrip_idem (s : Str) : plstrip (plstrip s) = plstrip s := by
  simp [plstrip, dropWhile_idem]

theorem prstrip_idem (s : Str) : prstrip (prstrip s) = prstrip s := by
  simp [prstrip, dropWhile_idem]

/-- `prstrip` keeps a prefix of its argument. -/
theorem prstrip_isPrefix (x : Str) : (prstrip x) <+: x := by
  have h1 : (x.reverse.dropWhile pyIsSpace) <:+ x.reverse :=
    List.dropWhile_suffix _
  have h2 := h1.reverse
  simpa [prstrip] using h2

/-- A left-stripped string stays left-stripped after right-stripping. -/
theorem plstrip_prstrip_of_lstripped (x : Str) (h0 : plstrip x = x) :
    plstrip (prstrip x) = prstrip x := by
  rcases hr : prstrip x with _ | ⟨c, t⟩
  · rfl
  · obtain ⟨rest, hx⟩ := prstrip_isPrefix x
    rw [hr] at hx
    have hpc : pyIsSpace c = false := by
      by_contra hc
      have hc' : pyIsSpace c = true := by
        cases hq : pyIsSpace c
        · exact absurd hq hc
        · rfl
      rw [← hx] at h0
      rw [show ((c :: t) ++ rest : Str) = c :: (t ++ rest) from rfl] at h0
      unfold plstrip at h0
      rw [List.dropWhile_cons, hc'] at h0
      have hlen := congrArg List.length h0
      have hle := (List.dropWhile_sublist (p := pyIsSpace) (l := t ++ rest)).length_le
      simp only [List.length_cons, if_true] at hlen
      omega
    simp [plstrip, List.dropWhile_cons, hpc]

/-- Python `strip` is idempotent. -/
theorem pstrip_idem (s : Str) : pstrip (pstrip s) = pstrip s := by
  unfold pstrip
  have h1 : plstrip (prstrip (plstrip s)) = prstrip (plstrip s) :=
    plstrip_prstrip_of_lstripped _ (plstrip_idem s)
  rw [h1, prstrip_idem]

/-! ### C1 — SLA boundary -/

/-- An environment whose clock stands exactly 5 days after the parsed
`updated_at` instant. -/
def envBoundary : Env :=
  { nowSec := 5 * 86400
    nowDay := 0
    nowIso := []
    nowDateMin := []
    nowHuman := []
    nowMs := 0
    parseIso := fun _ => some 0
    parseDate := fun _ => none
    parseDateSec := fun _ => none
    aiComment := fun _ => none }

/-- A record whose `updated_at` parses to instant 0. -/
def demBoundary : Dem := { updated_at := some ("t".toList) }

/-- C1 counterexample: with `now − updated_at` exactly 5 days — which the
claim counts as breached — `enrich_dem` reports `sla_breached = False`,
because the code tests `now - upd > timedelta(days=5)` strictly. -/
theorem c1_boundary_counterexample :
    envBoundary.parseIso ("t".toList) = some 0 ∧
    envBoundary.nowSec - 0 ≥ 5 * 86400 ∧
    (enrichDem envBoundary demBoundary).sla_breached = some false := by
  refine ⟨rfl, by decide, ?_⟩
  rfl

/-- C1 (amended): `sla_breached` is true iff `now − updated_at` is
STRICTLY greater than 5 days (the boundary at exactly 5 days is not
breached); `updated_at` falls back to `created_at` when falsy.  The `DEM`
variant's separate `stale` flag does use the inclusive `≥` comparison,
with its own fallback chain `updated_at` / last-note `created_at` /
`start_date`. -/
theorem c1_sla_strict (env : Env) (dem : Dem) (p : DProj) :
    (truthyStr dem.updated_at = false →
      orStr dem.updated_at dem.created_at = dem.created_at) ∧
    (∀ us t, orStr dem.updated_at dem.created_at = some us → us ≠ [] →
      env.parseIso us = some t →
      (enrichDem env dem).sla_breached =
        some (decide (env.nowSec - t > 5 * 86400))) ∧
    (∀ us, orStr dem.updated_at dem.created_at = some us → us ≠ [] →
      env.parseIso us = none →
      (enrichDem env dem).sla_breached = some false) ∧
    (∀ us t,
      orStr p.updated_at (orStr ((p.notes.getD []).getLast?.bind
        (fun n => n.created_at)) p.start_date) = some us → us ≠ [] →
      dParse env us = some t →
      (enrichProject env p).stale =
        some (decide (env.nowSec - t ≥ 5 * 86400))) := by
  refine ⟨?_, ?_, ?_, ?_⟩
  · intro h
    simp [orStr, h]
  · intro us t h1 h2 h3
    have ht : truthyStr (orStr dem.updated_at dem.created_at) = true := by
      rw [h1]
      simpa [truthyStr] using h2
    simp only [enrichDem, ht, if_true, h1, Option.getD_some, h3]
    simp [truthyStr, h2]
  · intro us h1 h2 h3
    have ht : truthyStr (orStr dem.updated_at dem.created_at) = true := by
      rw [h1]
      simpa [truthyStr] using h2
    simp only [enrichDem, ht, if_true, h1, Option.getD_some, h3]
    simp [truthyStr]
  · intro us t h1 h2 h3
    have hts : (match (p.notes.getD []).getLast? with
        | some n => n.created_at
        | none => none) = (p.notes.getD []).getLast?.bind (fun n => n.created_at) := by
      cases (p.notes.getD []).getLast? <;> rfl
    have ht : truthyStr (orStr p.updated_at (orStr ((p.notes.getD []).getLast?.bind
        (fun n => n.created_at)) p.start_date)) = true := by
      rw [h1]
      simpa [truthyStr] using h2
    simp only [enrichProject, hts, ht, if_true, h1, Option.getD_some, h3]
    simp [truthyStr, h2]

/-- Concrete instantiation of `c1_sla_strict`: one second past the 5-day
window is breached. -/
theorem c1_sla_strict_witness :
    (enrichDem
      { envBoundary with nowSec := 5 * 86400 + 1 } demBoundary).sla_breached = some true := by
  have h := (c1_sla_strict { envBoundary with nowSec := 5 * 86400 + 1 }
    demBoundary { }).2.1 ("t".toList) 0 rfl (by decide) rfl
  simpa using h

/-! ### C8 — best-effort AI highlight -/

/-- C8: the per-record AI highlight is best-effort — when the external
summarization call fails, `generate_ai_comment` returns the fixed
placeholder string (it is a total function, so no exception or error
result ever reaches the caller), and the HTML report embeds exactly this
highlight for every record. -/
theorem c8_ai_comment_best_effort (env : Env) (dem : Dem) (projects : List Dem) :
    (env.aiComment dem = none →
      generateAiComment env dem = "No AI comment available.".toList) ∧
    (∀ s, env.aiComment dem = some s → generateAiComment env dem = pstrip s) ∧
    (buildPortfolioHtml env projects).details.map (fun dtl => dtl.aiComment) =
      projects.map (generateAiComment env) := by
  refine ⟨?_, ?_, ?_⟩
  · intro h
    simp [generateAiComment, h]
  · intro s h
    simp [generateAiComment, h]
  · simp [buildPortfolioHtml, htmlDetailOf, List.map_map]

/-- Concrete instantiation of `c8_ai_comment_best_effort`: a failing LLM
call yields the placeholder highlight. -/
theorem c8_ai_comment_best_effort_witness :
    generateAiComment envBoundary demBoundary = "No AI comment available.".toList :=
  (c8_ai_comment_best_effort envBoundary demBoundary []).1 rfl

/-! ### C3 — what the HTML report consumes -/

/-- An environment ten days past the parsed update instant. -/
def envTenDays : Env := { envBoundary with nowSec := 10 * 86400 }

/-- C3 counterexample: on a store holding one active record last updated
ten days ago, the enriched sequence has one SLA-breached record (and the
TXT resume counts it), but the HTML report's SLA-breached dashboard count
is 0 — `dem_report` hands `build_portfolio_html` the raw stored records,
which carry no `sla_breached` key, not the enriched sequence. -/
theorem c3_html_raw_counterexample :
    slaBreachedCount (getDemsFiltered envTenDays false [demBoundary]) = 1 ∧
    (demReport envTenDays [demBoundary]).slaCount = 0 := by
  constructor
  · rfl
  · rfl

/-- C3 (amended): the HTML report adapter consumes the RAW non-archived
stored records, not the enriched sequence: its active total and detail
blocks are one per non-archived stored record in order, its priority and
SLA dashboard figures are computed over the stored field values, and in
particular when no stored record carries an `sla_breached` key (the
normal situation, since enrichment output is never persisted) the HTML
SLA-breached count is 0 regardless of the enriched value. -/
theorem c3_html_consumes_raw (env : Env) (store : List Dem) :
    demReport env store =
      buildPortfolioHtml env (store.filter (fun d => !truthyBool d.archived)) ∧
    (demReport env store).activeCount =
      (store.filter (fun d => !truthyBool d.archived)).length ∧
    (demReport env store).p1Count =
      (store.filter (fun d => !truthyBool d.archived)).countP
        (fun p => pyStr p.priority = "1".toList) ∧
    (demReport env store).slaCount =
      (store.filter (fun d => !truthyBool d.archived)).countP
        (fun p => truthyBool p.sla_breached) ∧
    (demReport env store).details =
      (store.filter (fun d => !truthyBool d.archived)).map (htmlDetailOf env) ∧
    ((∀ d ∈ store, d.sla_breached = none) → (demReport env store).slaCount = 0) := by
  refine ⟨rfl, rfl, rfl, rfl, rfl, ?_⟩
  intro h
  show (store.filter (fun d => !truthyBool d.archived)).countP
      (fun p => truthyBool p.sla_breached) = 0
  rw [List.countP_eq_zero]
  intro d hd
  have hmem : d ∈ store := (List.mem_filter.mp hd).1
  rw [h d hmem]
  simp [truthyBool]

/-- Concrete instantiation of `c3_html_consumes_raw`: the raw store of the
counterexample yields an HTML SLA count of 0. -/
theorem c3_html_consumes_raw_witness :
    (demReport envTenDays [demBoundary]).slaCount = 0 :=
  (c3_html_consumes_raw envTenDays [demBoundary]).2.2.2.2.2
    (by intro d hd; simp at hd; rw [hd]; rfl)

/-! ### C9 — XLSX layout -/

/-- C9: the XLSX export is the fixed header row followed by exactly one
row per non-archived record (enriched), in store order; archived records
contribute no row; each row has the fixed 14-column order with the SLA
column rendered `"Breached"`/`"OK"` and the last-note text in the final
column. -/
theorem c9_xlsx_layout (env : Env) (store : List Dem) (dem : Dem) :
    exportActiveExcel env store =
      (excelHeader.map Cell.str) ::
        (store.filter (fun d => truthyBool d.archived = false)).map
          (fun d => excelRow (enrichDem env d)) ∧
    (exportActiveExcel env store).length =
      1 + (store.filter (fun d => truthyBool d.archived = false)).length ∧
    (∀ d ∈ getDemsFiltered env false store, d.archived = some false) ∧
    excelRow dem =
      [cellStr dem.id, cellStr dem.name, cellStr dem.title, cellStr dem.sponsor,
       cellStr dem.requester, cellStr dem.ba_owner, cellStr dem.cost_center,
       cellStr dem.status, cellStr dem.workflow_status, cellStr dem.current_owner,
       cellStr dem.start_date, cellDur dem.duration_days,
       Cell.str (if truthyBool dem.sla_breached then "Breached".toList else "OK".toList),
       cellStr dem.last_note] := by
  refine ⟨?_, ?_, ?_, ?_⟩
  · simp [exportActiveExcel, getDemsFiltered, List.map_map]
  · simp [exportActiveExcel, getDemsFiltered]
    omega
  · intro d hd
    simp only [getDemsFiltered, List.mem_map] at hd
    obtain ⟨d0, hd0, rfl⟩ := hd
    have harch : truthyBool d0.archived = false := by
      have := List.mem_filter.mp hd0
      simpa using this.2
    show some (d0.archived.getD false) = some false
    rcases hv : d0.archived with _ | b
    · rfl
    · rw [hv] at harch
      simp [truthyBool] at harch
      simp [harch]
  · rcases hv : dem.sla_breached with _ | b <;> rcases hb : truthyBool dem.sla_breached <;>
      simp_all [excelRow, cellSla]

/-- Concrete instantiation of `c9_xlsx_layout`: the export of a two-record
store (one archived) has exactly one data row, bearing the enriched
non-archived record. -/
theorem c9_xlsx_layout_witness :
    (exportActiveExcel envBoundary [demBoundary, { archived := some true }]).length = 2 ∧
    (∀ d ∈ getDemsFiltered envBoundary false [demBoundary, { archived := some true }],
      d.archived = some false) := by
  constructor
  · have h := (c9_xlsx_layout envBoundary [demBoundary, { archived := some true }]
      demBoundary).2.1
    rw [h]
    rfl
  · exact (c9_xlsx_layout envBoundary [demBoundary, { archived := some true }]
      demBoundary).2.2.1

/-! ### C2 — idempotence of enrichment -/

/-- The raw text carried by a note. -/
def noteRawText : NoteV → Str
  | NoteV.dict t _ => t.getD []
  | NoteV.str s => s

/-- A note whose cleaned text is a fixpoint of the cleaner (cleaning it a
second time changes nothing). -/
def CleanStable (n : NoteV) : Prop :=
  cleanNoteText (cleanNoteText (noteRawText n)) = cleanNoteText (noteRawText n)

/-- A record with a note whose bracketed timestamp prefix repeats. -/
def demNested : Dem :=
  { notes := some [NoteV.dict (some ("[a] — [b] — [c] — x".toList)) (some ("d".toList))] }

/-- C2 counterexample: enrichment is NOT idempotent on every record — on a
note text with a repeated bracketed prefix, a second enrichment strips a
further prefix from the cleaned note text and from `last_note`. -/
theorem c2_idempotence_counterexample :
    (enrichDem envBoundary (enrichDem envBoundary demNested)).notes ≠
      (enrichDem envBoundary demNested).notes ∧
    (enrichDem envBoundary (enrichDem envBoundary demNested)).last_note ≠
      (enrichDem envBoundary demNested).last_note := by
  constructor
  · decide
  · decide

theorem cleanNote_stable (n : NoteV) (h : CleanStable n) :
    cleanNote (cleanNote n) = cleanNote n := by
  cases n with
  | dict t d =>
      simp only [cleanNote, Option.getD_some]
      unfold CleanStable noteRawText at h
      rw [h]
  | str s =>
      simp only [cleanNote]
      unfold CleanStable noteRawText at h
      rw [h]

theorem map_cleanNote_stable (l : List NoteV) (h : ∀ n ∈ l, CleanStable n) :
    (l.map cleanNote).map cleanNote = l.map cleanNote := by
  rw [List.map_map]
  exact List.map_congr_left (fun n hn => cleanNote_stable n (h n hn))

/-- C2 (amended): holding the clock fixed, enrichment is idempotent on
`duration_days`, `sla_breached`, `archived`, `priority` and `documents`
for every record; it is idempotent on the cleaned note texts and
`last_note` (indeed on the whole record) exactly when one cleaning pass
is already a fixpoint for each note, which fails only for texts whose
bracketed `"[...] — "` prefix is repeated. -/
theorem c2_enrich_idempotent (env : Env) (dem : Dem) :
    ((enrichDem env (enrichDem env dem)).duration_days =
        (enrichDem env dem).duration_days ∧
      (enrichDem env (enrichDem env dem)).sla_breached =
        (enrichDem env dem).sla_breached ∧
      (enrichDem env (enrichDem env dem)).archived =
        (enrichDem env dem).archived ∧
      (enrichDem env (enrichDem env dem)).priority =
        (enrichDem env dem).priority ∧
      (enrichDem env (enrichDem env dem)).documents =
        (enrichDem env dem).documents) ∧
    ((∀ n ∈ dem.notes.getD [], CleanStable n) →
      enrichDem env (enrichDem env dem) = enrichDem env dem) := by
  constructor
  · refine ⟨rfl, rfl, rfl, ?_, ?_⟩
    · show (if truthyStr (enrichDem env dem).priority
          then (enrichDem env dem).priority else some ("2".toList)) = _
      have h1 : (enrichDem env dem).priority =
          (if truthyStr dem.priority then dem.priority else some ("2".toList)) := rfl
      have h2 : truthyStr (some ("2".toList)) = true := by decide
      rw [h1]
      by_cases h : truthyStr dem.priority
      · simp only [h, if_true]
      · simp only [h, Bool.false_eq_true, if_false, h2, if_true]
    · show (match (enrichDem env dem).documents with
          | DocsVal.list l => DocsVal.list l
          | _ => DocsVal.list []) = _
      rcases hd : dem.documents with _ | _ | l <;>
        · have h1 : (enrichDem env dem).documents =
              (match dem.documents with
                | DocsVal.list l => DocsVal.list l
                | _ => DocsVal.list []) := rfl
          rw [h1, hd]
  · intro hstable
    have hmap := map_cleanNote_stable (dem.notes.getD []) hstable
    cases dem with
    | mk id name sponsor requester ba_owner title change_request cost_center
        status workflow_status current_owner start_date priority doc_summary
        created_at updated_at notes documents archived duration_days
        last_note sla_breached =>
      simp only [enrichDem, Option.getD_some]
      simp only at hmap
      rw [Dem.mk.injEq]
      refine ⟨rfl, rfl, rfl, rfl, rfl, rfl, rfl, rfl, rfl, rfl, rfl, rfl, ?_,
        rfl, rfl, rfl, ?_, ?_, rfl, rfl, ?_, rfl⟩
      · have h2 : truthyStr (some ("2".toList)) = true := by decide
        by_cases h : truthyStr priority
        · simp only [h, if_true]
        · simp only [h, Bool.false_eq_true, if_false, h2, if_true]
      · rw [hmap]
      · rcases documents with _ | _ | l <;> rfl
      · rw [hmap]

/-- Concrete instantiation of `c2_enrich_idempotent`: a record whose note
is a plain sentence is a fixpoint of enrichment. -/
theorem c2_enrich_idempotent_witness :
    enrichDem envBoundary (enrichDem envBoundary
      { notes := some [NoteV.dict (some ("hello".toList)) (some ("d".toList))] }) =
    enrichDem envBoundary
      { notes := some [NoteV.dict (some ("hello".toList)) (some ("d".toList))] } :=
  (c2_enrich_idempotent envBoundary
    { notes := some [NoteV.dict (some ("hello".toList)) (some ("d".toList))] }).2
    (by intro n hn; simp at hn; rw [hn]; unfold CleanStable; decide)

/-! ### C5 / C4 — the update contract -/

theorem updScan_not_found (env : Env) (id : Str) (u : Dem → Except Str Dem)
    (l : List Dem) (h : ∀ d ∈ l, d.id ≠ some id) :
    updScan env id u l = Except.ok none := by
  induction l with
  | nil => rfl
  | cons d rest ih =>
      have hd : d.id ≠ some id := h d (by simp)
      have hrest : ∀ x ∈ rest, x.id ≠ some id := fun x hx => h x (by simp [hx])
      simp [updScan, hd, ih hrest, Except.map]

theorem updScan_found (env : Env) (id : Str) (u : Dem → Except Str Dem)
    (pre : List Dem) (d : Dem) (post : List Dem) (d1 : Dem)
    (hpre : ∀ p ∈ pre, p.id ≠ some id) (hd : d.id = some id)
    (hu : u d = Except.ok d1) :
    updScan env id u (pre ++ d :: post) =
      Except.ok (some (pre ++ { d1 with updated_at := some env.nowIso } :: post,
        enrichDem env { d1 with updated_at := some env.nowIso })) := by
  induction pre with
  | nil =>
      simp only [List.nil_append]
      simp [updScan, hd, hu]
  | cons p rest ih =>
      have hp : p.id ≠ some id := hpre p (by simp)
      have hrest : ∀ x ∈ rest, x.id ≠ some id := fun x hx => hpre x (by simp [hx])
      simp only [List.cons_append]
      simp [updScan, hp, ih hrest, Except.map]

theorem updScan_error (env : Env) (id : Str) (u : Dem → Except Str Dem)
    (l : List Dem) (d : Dem) (e : Str)
    (hfind : l.find? (fun r => r.id = some id) = some d)
    (hu : u d = Except.error e) :
    updScan env id u l = Except.error e := by
  induction l with
  | nil => simp at hfind
  | cons c rest ih =>
      by_cases hc : c.id = some id
      · rw [List.find?_cons_of_pos _ (by simp [hc])] at hfind
        have : c = d := by simpa using hfind
        subst this
        simp [updScan, hc, hu]
      · rw [List.find?_cons_of_neg _ (by simp [hc])] at hfind
        simp [updScan, hc, ih hfind, Except.map]

/-- C5: the `_update_dem` contract.  If no record carries the requested
id, the result is `None` (NotFound at the endpoints) and the persisted
collection is returned unchanged.  If a record matches, the first match
is mutated, its `updated_at` is stamped to the current instant, the full
collection (with only that element replaced) is persisted, and the
enriched updated record is returned. -/
theorem c5_update_contract (env : Env) (store : List Dem) (id : Str)
    (u : Dem → Except Str Dem) :
    ((∀ d ∈ store, d.id ≠ some id) →
      updateDem env store id u = Except.ok (store, none)) ∧
    (∀ pre d post d1, store = pre ++ d :: post →
      (∀ p ∈ pre, p.id ≠ some id) → d.id = some id → u d = Except.ok d1 →
      updateDem env store id u = Except.ok
        (pre ++ { d1 with updated_at := some env.nowIso } :: post,
         some (enrichDem env { d1 with updated_at := some env.nowIso }))) := by
  constructor
  · intro h
    unfold updateDem
    rw [updScan_not_found env id u store h]
  · intro pre d post d1 hsplit hpre hd hu
    unfold updateDem
    rw [hsplit, updScan_found env id u pre d post d1 hpre hd hu]

/-- A record carrying id `"x"`. -/
def demWithId : Dem := { demBoundary with id := some ("x".toList) }

/-- `demWithId` after archiving and stamping. -/
def demArchStamped : Dem :=
  { demWithId with
      archived := some true
      updated_at := some envBoundary.nowIso }

/-- Concrete instantiation of `c5_update_contract`: archiving the single
record of a store stamps `updated_at` and returns the enriched record;
updating a missing id returns the store unchanged with no record. -/
theorem c5_update_contract_witness :
    updateDem envBoundary [demBoundary] ("x".toList)
        (fun d => Except.ok { d with archived := some true }) =
      Except.ok ([demBoundary], none) ∧
    updateDem envBoundary [demWithId] ("x".toList)
        (fun d => Except.ok { d with archived := some true }) =
      Except.ok ([demArchStamped], some (enrichDem envBoundary demArchStamped)) := by
  constructor
  · exact (c5_update_contract envBoundary [demBoundary] ("x".toList) _).1
      (by intro d hd; simp at hd; rw [hd]; decide)
  · exact (c5_update_contract envBoundary [demWithId] ("x".toList)
      (fun d => Except.ok { d with archived := some true })).2
      [] demWithId [] { demWithId with archived := some true }
      rfl (by intro p hp; simp at hp) rfl rfl

/-- C4: editing a note at an out-of-range index (negative, or at least
the note count of the addressed record) returns a ValidationError and
leaves the persisted store unchanged — no note is modified, `updated_at`
is not advanced, nothing is saved. -/
theorem c4_edit_invalid_index (env : Env) (store : List Dem) (id : Str)
    (idx : Int) (text : Str) (d : Dem)
    (hfind : store.find? (fun r => r.id = some id) = some d)
    (hidx : idx < 0 ∨ ((d.notes.getD []).length : Int) ≤ idx) :
    ∃ m, editDemNote env store id (some idx) text = (store, Resp.errValidation m) := by
  by_cases ht : pstrip text = []
  · refine ⟨"Invalid index or empty text.".toList, ?_⟩
    simp [editDemNote, ht]
  · refine ⟨invalidIndexMsg, ?_⟩
    have hcond : ¬((some idx : Option Int) = none ∨ pstrip text = []) := by
      simp [ht]
    have hupd : updScan env id
        (fun d0 =>
          let notes := d0.notes.getD []
          if idx < 0 ∨ (notes.length : Int) ≤ idx then Except.error invalidIndexMsg
          else Except.ok { d0 with
            notes := some (notes.set idx.toNat
              (NoteV.dict (some (cleanNoteText (pstrip text))) (some env.nowDateMin))) })
        store = Except.error invalidIndexMsg := by
      apply updScan_error env id _ store d _ hfind
      simp only []
      rw [if_pos hidx]
    simp only [editDemNote, if_neg hcond, Option.getD_some, updateDem, hupd]

/-- Concrete instantiation of `c4_edit_invalid_index`: editing note 5 of a
record that has two notes fails with a ValidationError and an unchanged
store. -/
theorem c4_edit_invalid_index_witness :
    ∃ m, editDemNote envBoundary
        [{ id := some ("x".toList),
           notes := some [NoteV.str ("a".toList), NoteV.str ("b".toList)] }]
        ("x".toList) (some 5) ("new".toList) =
      ([{ id := some ("x".toList),
          notes := some [NoteV.str ("a".toList), NoteV.str ("b".toList)] }],
        Resp.errValidation m) :=
  c4_edit_invalid_index envBoundary _ _ 5 _ _ (by rfl) (by right; decide)

/-! ### C10 — timestamp prefix stripped at write time -/

theorem findSub_spec (pat : Str) (s : Str) (i : Nat) (h : findSub pat s = some i) :
    pat.isPrefixOf (s.drop i) = true ∧
      ∀ j, j < i → pat.isPrefixOf (s.drop j) = false := by
  induction s generalizing i with
  | nil =>
      by_cases hp : pat.isPrefixOf ([] : Str) = true
      · have hi : i = 0 := by simp [findSub, hp] at h; omega
        subst hi
        exact ⟨hp, fun j hj => absurd hj (by omega)⟩
      · simp [findSub, hp] at h
  | cons c t ih =>
      by_cases hp : pat.isPrefixOf (c :: t) = true
      · have hi : i = 0 := by simp [findSub, hp] at h; omega
        subst hi
        exact ⟨hp, fun j hj => absurd hj (by omega)⟩
      · have h' : (findSub pat t).map (fun n => n + 1) = some i := by
          simpa [findSub, hp] using h
        rcases hm : findSub pat t with _ | i0
        · rw [hm] at h'
          simp at h'
        · rw [hm] at h'
          simp at h'
          obtain ⟨hpre0, hall⟩ := ih i0 hm
          constructor
          · rw [← h']
            simpa using hpre0
          · intro j hj
            cases j with
            | zero =>
                cases hb : pat.isPrefixOf (c :: t) with
                | false => simpa using hb
                | true => exact absurd hb hp
            | succ j0 =>
                have : j0 < i0 := by omega
                simpa using hall j0 this

/-- C10: when the trimmed submitted text begins with `"["` and contains
`"] — "`, both `add_dem_note` and `edit_dem_note` store only the
substring after the FIRST occurrence of `"] — "` (leading whitespace
stripped) — strictly shorter than the trimmed submission, so the text is
not stored verbatim; the prefix is stripped at write time by
`_clean_note_text`, before anything reaches the store. -/
theorem c10_note_prefix_stripped (env : Env) (text : Str) :
    (∀ i, (['['] : Str).isPrefixOf (pstrip text) = true →
      findSub notePat (pstrip text) = some i →
      cleanNoteText (pstrip text) = plstrip ((pstrip text).drop (i + 4)) ∧
      notePat.isPrefixOf ((pstrip text).drop i) = true ∧
      (∀ j, j < i → notePat.isPrefixOf ((pstrip text).drop j) = false) ∧
      (cleanNoteText (pstrip text)).length < (pstrip text).length) ∧
    (∀ store id pre d post, store = pre ++ d :: post →
      (∀ p ∈ pre, p.id ≠ some id) → d.id = some id → pstrip text ≠ [] →
      (addDemNote env store id text).1 =
        pre ++ { d with
          notes := some ((d.notes.getD []) ++
            [NoteV.dict (some (cleanNoteText (pstrip text))) (some env.nowDateMin)])
          updated_at := some env.nowIso } :: post) ∧
    (∀ store id pre d post (idx : Int), store = pre ++ d :: post →
      (∀ p ∈ pre, p.id ≠ some id) → d.id = some id → pstrip text ≠ [] →
      0 ≤ idx → idx < ((d.notes.getD []).length : Int) →
      (editDemNote env store id (some idx) text).1 =
        pre ++ { d with
          notes := some ((d.notes.getD []).set idx.toNat
            (NoteV.dict (some (cleanNoteText (pstrip text))) (some env.nowDateMin)))
          updated_at := some env.nowIso } :: post) := by
  refine ⟨?_, ?_, ?_⟩
  · intro i hpre hfind
    have htxt : pstrip text ≠ [] := by
      intro he
      rw [he] at hpre
      exact absurd hpre (by decide)
    have e1 : cleanNoteText (pstrip text) = plstrip ((pstrip text).drop (i + 4)) := by
      unfold cleanNoteText
      rw [if_neg htxt]
      simp only [pstrip_idem, hpre, if_true, hfind]
    have hspec := findSub_spec notePat (pstrip text) i hfind
    refine ⟨e1, hspec.1, hspec.2, ?_⟩
    rw [e1]
    have h1 : (plstrip ((pstrip text).drop (i + 4))).length ≤
        ((pstrip text).drop (i + 4)).length := by
      unfold plstrip
      exact (List.dropWhile_sublist _).length_le
    have h2 : ((pstrip text).drop (i + 4)).length =
        (pstrip text).length - (i + 4) := List.length_drop _ _
    have h3 : 0 < (pstrip text).length := by
      rcases hc : pstrip text with _ | ⟨c, t⟩
      · exact absurd hc htxt
      · simp
    omega
  · intro store id pre d post hsplit hpre hd htxt
    have hscan := updScan_found env id
      (fun d0 => Except.ok { d0 with
        notes := some ((d0.notes.getD []) ++
          [NoteV.dict (some (cleanNoteText (pstrip text))) (some env.nowDateMin)]) })
      pre d post
      { d with
        notes := some ((d.notes.getD []) ++
          [NoteV.dict (some (cleanNoteText (pstrip text))) (some env.nowDateMin)]) }
      hpre hd rfl
    simp only [addDemNote, if_neg htxt, updateDem, hsplit, hscan]
  · intro store id pre d post idx hsplit hpre hd htxt h0 h1
    have hcond : ¬((some idx : Option Int) = none ∨ pstrip text = []) := by
      simp [htxt]
    have hnoerr : ¬(idx < 0 ∨ ((d.notes.getD []).length : Int) ≤ idx) := by omega
    have hscan := updScan_found env id
      (fun d0 =>
        if idx < 0 ∨ ((d0.notes.getD []).length : Int) ≤ idx then
          Except.error invalidIndexMsg
        else Except.ok { d0 with
          notes := some ((d0.notes.getD []).set idx.toNat
            (NoteV.dict (some (cleanNoteText (pstrip text))) (some env.nowDateMin))) })
      pre d post
      { d with
        notes := some ((d.notes.getD []).set idx.toNat
          (NoteV.dict (some (cleanNoteText (pstrip text))) (some env.nowDateMin))) }
      hpre hd (by dsimp only; rw [if_neg hnoerr])
    simp only [editDemNote, if_neg hcond, Option.getD_some, updateDem, hsplit, hscan]

/-- Concrete instantiation of `c10_note_prefix_stripped`: adding the note
`"[d] — hello"` stores only `"hello"`. -/
theorem c10_note_prefix_stripped_witness :
    (addDemNote envBoundary [demWithId] ("x".toList) ("[d] — hello".toList)).1 =
      [{ demWithId with
          notes := some [NoteV.dict (some ("hello".toList)) (some envBoundary.nowDateMin)]
          updated_at := some envBoundary.nowIso }] := by
  have h := (c10_note_prefix_stripped envBoundary ("[d] — hello".toList)).2.1
    [demWithId] ("x".toList) [] demWithId [] rfl
    (by intro p hp; simp at hp) rfl (by decide)
  rw [h]
  decide

/-! ### C7 — report shape -/

theorem isPrefixOf_append_left (a b v : Str) (h : a.length ≤ b.length) :
    a.isPrefixOf (b ++ v) = a.isPrefixOf b := by
  induction a generalizing b with
  | nil =>
      cases b <;> simp [List.isPrefixOf]
  | cons x xs ih =>
      cases b with
      | nil => simp at h
      | cons y ys =>
          have h' : xs.length ≤ ys.length := by
            simp at h
            omega
          show ((x :: xs).isPrefixOf (y :: (ys ++ v))) = _
          simp only [List.isPrefixOf]
          rw [ih ys h']

theorem tag_prefix_self (v : Str) : tagDEM.isPrefixOf (tagDEM ++ v) = true := by
  rw [List.isPrefixOf_iff_prefix]
  exact ⟨v, rfl⟩

theorem tag_not_prefix_long (lit v : Str) (h5 : tagDEM.length ≤ lit.length)
    (hf : tagDEM.isPrefixOf lit = false) :
    tagDEM.isPrefixOf (lit ++ v) = false := by
  rw [isPrefixOf_append_left _ _ _ h5]
  exact hf

theorem tag_not_prefix_of_head (c : Char) (v : Str) (h : ('D' == c) = false) :
    tagDEM.isPrefixOf (c :: v) = false := by
  have ht : tagDEM = 'D' :: ('E' :: ('M' :: (':' :: [' ']))) := rfl
  rw [ht]
  simp only [List.isPrefixOf, h, Bool.false_and]

theorem ntp_bullet (v : Str) : tagDEM.isPrefixOf ("• ".toList ++ v) = false := by
  show tagDEM.isPrefixOf ('•' :: (' ' :: v)) = false
  exact tag_not_prefix_of_head '•' _ (by decide)

theorem ntp_dash (v : Str) : tagDEM.isPrefixOf ("- ".toList ++ v) = false := by
  show tagDEM.isPrefixOf ('-' :: (' ' :: v)) = false
  exact tag_not_prefix_of_head '-' _ (by decide)

theorem ntp_nil : tagDEM.isPrefixOf ([] : Str) = false := by decide

theorem ntp_sep : tagDEM.isPrefixOf sep78 = false := by decide

/-- No line of an overview block is a detail-block head. -/
theorem countTag_overviewBlock (e : Dem) :
    (overviewBlock e).countP (fun l => tagDEM.isPrefixOf l) = 0 := by
  unfold overviewBlock
  simp only [List.countP_cons, List.countP_nil, List.append_assoc]
  rw [ntp_bullet, ntp_nil]
  rw [tag_not_prefix_long ("  Last update: ".toList) _ (by decide) (by decide)]
  simp

/-- Exactly the head line of a detail block is a detail-block head. -/
theorem countTag_detailBlock (e : Dem) :
    (detailBlock e).countP (fun l => tagDEM.isPrefixOf l) = 1 := by
  unfold detailBlock
  simp only [List.countP_append, List.countP_cons, List.countP_nil, List.append_assoc]
  rw [tag_prefix_self]
  rw [tag_not_prefix_long ("Project Title: ".toList) _ (by decide) (by decide)]
  rw [tag_not_prefix_long ("Sponsor: ".toList) _ (by decide) (by decide)]
  rw [tag_not_prefix_long ("BA Owner: ".toList) _ (by decide) (by decide)]
  rw [tag_not_prefix_long ("Cost Center: ".toList) _ (by decide) (by decide)]
  rw [tag_not_prefix_long ("Start Date: ".toList) _ (by decide) (by decide)]
  rw [tag_not_prefix_long ("DEM Status: ".toList) _ (by decide) (by decide)]
  rw [tag_not_prefix_long ("Workflow Status: ".toList) _ (by decide) (by decide)]
  rw [tag_not_prefix_long ("Priority (1–4): ".toList) _ (by decide) (by decide)]
  rw [tag_not_prefix_long ("SLA Status: ".toList) _ (by decide) (by decide)]
  rw [ntp_nil, ntp_sep]
  have hnotes : (if (e.notes.getD []) ≠ [] then
      ("Last Notes (most recent entries):".toList) ::
        (((e.notes.getD []).map formatNote).drop
            (((e.notes.getD []).map formatNote).length - 2)).map
          (fun n => "- ".toList ++ n)
    else [("Last Notes: (no notes registered)".toList)]).countP
      (fun l => tagDEM.isPrefixOf l) = 0 := by
    by_cases hn : (e.notes.getD []) ≠ []
    · rw [if_pos hn]
      simp only [List.countP_cons]
      have hmap : ((((e.notes.getD []).map formatNote).drop
          (((e.notes.getD []).map formatNote).length - 2)).map
            (fun n => "- ".toList ++ n)).countP (fun l => tagDEM.isPrefixOf l) = 0 := by
        rw [List.countP_eq_zero]
        intro x hx
        obtain ⟨n, _, rfl⟩ := List.mem_map.mp hx
        intro hcon
        have h2 : tagDEM.isPrefixOf ("- ".toList ++ n) = true := by
          rw [List.isPrefixOf_iff_prefix]
          simpa using hcon
        rw [ntp_dash n] at h2
        exact Bool.false_ne_true h2
      rw [hmap]
      have hhead : tagDEM.isPrefixOf ("Last Notes (most recent entries):".toList) = false := by
        decide
      rw [hhead]
      simp
    · rw [if_neg hn]
      simp only [List.countP_cons, List.countP_nil]
      have hhead : tagDEM.isPrefixOf ("Last Notes: (no notes registered)".toList) = false := by
        decide
      rw [hhead]
      simp
  rw [hnotes]
  simp

/-- No line of the resume metric section is a detail-block head. -/
theorem countTag_resumeLines (enriched : List Dem) :
    (resumeLines enriched).countP (fun l => tagDEM.isPrefixOf l) = 0 := by
  unfold resumeLines
  simp only [List.countP_append, List.countP_cons, List.countP_nil, List.append_assoc]
  rw [show tagDEM.isPrefixOf ("Key portfolio metrics for active DEM projects:".toList) =
      false from by decide]
  rw [tag_not_prefix_long ("• Total active DEMs: ".toList) _ (by decide) (by decide)]
  rw [show tagDEM.isPrefixOf ("• Priority distribution:".toList) = false from by decide]
  rw [tag_not_prefix_long ("   – P1 (Critical): ".toList) _ (by decide) (by decide)]
  rw [tag_not_prefix_long ("   – P2 (High): ".toList) _ (by decide) (by decide)]
  rw [tag_not_prefix_long ("   – P3 (Medium): ".toList) _ (by decide) (by decide)]
  rw [tag_not_prefix_long ("   – P4 (Low): ".toList) _ (by decide) (by decide)]
  rw [tag_not_prefix_long ("• SLA window (last 5 days): OK=".toList) _ (by decide) (by decide)]
  have hst : (statusTopLines enriched).countP (fun l => tagDEM.isPrefixOf l) = 0 := by
    unfold statusTopLines
    by_cases hc : enriched.foldl (fun m e => bumpStatus m (statusOrNA e)) [] = []
    · rw [if_pos hc]
      rfl
    · rw [if_neg hc]
      simp only [List.countP_cons, List.countP_nil]
      rw [tag_not_prefix_long ("• Most common DEM Status: ".toList) _ (by decide) (by decide)]
      simp
  rw [hst]
  simp

/-- C7: `build_portfolio_text` on the empty sequence returns exactly the
fixed no-projects sentence; on a non-empty sequence of N records the
report (the newline-join of its lines) contains exactly N detail blocks,
one per record in sequence order, each opened by a `"DEM: "` line. -/
theorem c7_report_shape (env : Env) (dems : List Dem)
    (hh : tagDEM.isPrefixOf
      (env.nowHuman ++ " — Andres Villanueva DEMS Report".toList) = false) :
    buildPortfolioText env [] = noProjectsSentence ∧
    (dems ≠ [] →
      buildPortfolioText env dems = List.intercalate ['\n'] (portfolioLines env dems) ∧
      (portfolioLines env dems).countP (fun l => tagDEM.isPrefixOf l) = dems.length) := by
  constructor
  · rfl
  · intro hne
    constructor
    · unfold buildPortfolioText
      rw [if_neg hne]
    · have hov : ((dems.map (enrichDem env)).map overviewBlock).flatten.countP
          (fun l => tagDEM.isPrefixOf l) = 0 := by
        rw [List.countP_flatten]
        apply List.sum_eq_zero
        intro x hx
        simp only [List.map_map, List.mem_map] at hx
        obtain ⟨e, _, rfl⟩ := hx
        exact countTag_overviewBlock _
      have hdet : ((dems.map (enrichDem env)).map detailBlock).flatten.countP
          (fun l => tagDEM.isPrefixOf l) = dems.length := by
        rw [List.countP_flatten]
        simp only [List.map_map]
        have hpt : dems.map
            ((List.countP fun l => List.isPrefixOf tagDEM l) ∘ detailBlock ∘ enrichDem env) =
            dems.map (fun _ => 1) :=
          List.map_congr_left (fun d _ => countTag_detailBlock (enrichDem env d))
        rw [hpt]
        simp
      unfold portfolioLines
      simp only [List.countP_append, List.countP_cons, List.countP_nil]
      rw [hh]
      rw [show tagDEM.isPrefixOf
        ("1. Projects Resume — Executive Overview".toList) = false from by decide]
      rw [show tagDEM.isPrefixOf
        ("Active DEM overview (project name + latest comment):".toList) = false from by decide]
      rw [show tagDEM.isPrefixOf
        (("The following pages contain a detailed section per DEM, including "
          ++ "Project Title, Sponsor, BA Owner, Workflow Status, SLA condition and "
          ++ "the most recent notes captured during project follow-up.").toList) =
        false from by decide]
      rw [show tagDEM.isPrefixOf ("2. Projects Details".toList) = false from by decide]
      simp only [ntp_nil, ntp_sep]
      rw [countTag_resumeLines, hov, hdet]
      simp

/-- The boundary environment with a realistic report date. -/
def envReport : Env := { envBoundary with nowHuman := "October 12, 2025".toList }

/-- Concrete instantiation of `c7_report_shape`: the empty store yields
the fixed sentence, and a one-record store yields exactly one detail
block. -/
theorem c7_report_shape_witness :
    buildPortfolioText envReport [] = noProjectsSentence ∧
    (portfolioLines envReport [demWithId]).countP
      (fun l => tagDEM.isPrefixOf l) = 1 := by
  have h := c7_report_shape envReport [demWithId] (by decide)
  exact ⟨h.1, (h.2 (by simp)).2⟩

/-! ### C6 — id immutability and uniqueness -/

theorem updScan_idsOf (env : Env) (id : Str) (u : Dem → Except Str Dem)
    (h : ∀ d d1, u d = Except.ok d1 → d1.id = d.id) :
    ∀ l st enr, updScan env id u l = Except.ok (some (st, enr)) →
      idsOf st = idsOf l := by
  intro l
  induction l with
  | nil =>
      intro st enr hscan
      simp [updScan] at hscan
  | cons d rest ih =>
      intro st enr hscan
      by_cases hd : d.id = some id
      · rcases hu : u d with e | d1
        · rw [show updScan env id u (d :: rest) = Except.error e from by
            simp [updScan, hd, hu]] at hscan
          simp at hscan
        · rw [show updScan env id u (d :: rest) =
              Except.ok (some ({ d1 with updated_at := some env.nowIso } :: rest,
                enrichDem env { d1 with updated_at := some env.nowIso })) from by
            simp [updScan, hd, hu]] at hscan
          obtain ⟨h1, _⟩ := by simpa using hscan
          subst h1
          show ({ d1 with updated_at := some env.nowIso } : Dem).id :: idsOf rest = _
          have hid : ({ d1 with updated_at := some env.nowIso } : Dem).id = d.id :=
            h d d1 hu
          rw [hid]
          rfl
      · rcases hscan0 : updScan env id u rest with e | r
        · rw [show updScan env id u (d :: rest) = Except.error e from by
            simp [updScan, hd, hscan0, Except.map]] at hscan
          simp at hscan
        · rcases r with _ | ⟨st0, enr0⟩
          · rw [show updScan env id u (d :: rest) = Except.ok none from by
              simp [updScan, hd, hscan0, Except.map]] at hscan
            simp at hscan
          · rw [show updScan env id u (d :: rest) =
                Except.ok (some (d :: st0, enr0)) from by
              simp [updScan, hd, hscan0, Except.map]] at hscan
            obtain ⟨h1, _⟩ := by simpa using hscan
            subst h1
            show d.id :: idsOf st0 = d.id :: idsOf rest
            rw [ih st0 enr0 hscan0]

/-- The store component of any `_update_dem`-based endpoint keeps the id
column of the store unchanged, provided the updater never rewrites `id`
(all of them leave `id` alone). -/
theorem updateDem_pres_ids (env : Env) (store : List Dem) (id : Str)
    (u : Dem → Except Str Dem)
    (h : ∀ d d1, u d = Except.ok d1 → d1.id = d.id) :
    ∀ st r, updateDem env store id u = Except.ok (st, r) → idsOf st = idsOf store := by
  intro st r hup
  unfold updateDem at hup
  rcases hscan : updScan env id u store with e | ro
  · rw [hscan] at hup
    simp at hup
  · rcases ro with _ | ⟨st0, enr0⟩
    · rw [hscan] at hup
      simp at hup
      rw [← hup.1]
    · rw [hscan] at hup
      simp at hup
      rw [← hup.1]
      exact updScan_idsOf env id u h store st0 enr0 hscan

/-- The operations that mutate an existing record in place. -/
def OpMut : Op → Prop
  | Op.create _ => False
  | Op.deleteRec _ => False
  | Op.imp _ => False
  | _ => True

/-- The common endpoint wrapper around `_update_dem` keeps the id column
unchanged whatever branch is taken. -/
theorem endpointMatch_pres (env : Env) (store : List Dem) (id : Str)
    (u : Dem → Except Str Dem)
    (h : ∀ d d1, u d = Except.ok d1 → d1.id = d.id) :
    idsOf (match updateDem env store id u with
      | Except.error e => (store, Resp.errValidation e)
      | Except.ok (st, none) => (st, Resp.errNotFound)
      | Except.ok (st, some p) => (st, Resp.ok p)).1 = idsOf store := by
  rcases hup : updateDem env store id u with e | ⟨st, r⟩
  · rfl
  · rcases r with _ | p
    · exact updateDem_pres_ids env store id u h st none hup
    · exact updateDem_pres_ids env store id u h st (some p) hup

theorem idsOf_applyOp_mut (env : Env) (op : Op) (store : List Dem)
    (hmut : OpMut op) : idsOf (applyOp env op store) = idsOf store := by
  cases op with
  | fieldUpdate id data =>
      show idsOf (updateDemFields env store id data).1 = idsOf store
      unfold updateDemFields
      exact endpointMatch_pres env store id _ (fun d d1 hu => by
        have h1 := Except.ok.inj hu
        rw [← h1]
        rfl)
  | addNote id text =>
      show idsOf (addDemNote env store id text).1 = idsOf store
      unfold addDemNote
      dsimp only
      by_cases ht : pstrip text = []
      · rw [if_pos ht]
      · rw [if_neg ht]
        exact endpointMatch_pres env store id _ (fun d d1 hu => by
          have h1 := Except.ok.inj hu
          rw [← h1])
  | editNote id index text =>
      show idsOf (editDemNote env store id index text).1 = idsOf store
      unfold editDemNote
      dsimp only
      by_cases hc : index = none ∨ pstrip text = []
      · rw [if_pos hc]
      · rw [if_neg hc]
        exact endpointMatch_pres env store id _ (fun d d1 hu => by
          by_cases hi : (index.getD 0) < 0 ∨
              ((d.notes.getD []).length : Int) ≤ index.getD 0
          · rw [if_pos hi] at hu
            exact absurd hu (by simp)
          · rw [if_neg hi] at hu
            have h1 := Except.ok.inj hu
            rw [← h1])
  | delNote id index =>
      show idsOf (deleteDemNote env store id index).1 = idsOf store
      unfold deleteDemNote
      dsimp only
      by_cases hc : index = none
      · rw [if_pos hc]
      · rw [if_neg hc]
        exact endpointMatch_pres env store id _ (fun d d1 hu => by
          by_cases hi : (index.getD 0) < 0 ∨
              ((d.notes.getD []).length : Int) ≤ index.getD 0
          · rw [if_pos hi] at hu
            exact absurd hu (by simp)
          · rw [if_neg hi] at hu
            have h1 := Except.ok.inj hu
            rw [← h1])
  | archive id =>
      show idsOf (archiveDem env store id).1 = idsOf store
      unfold archiveDem
      exact endpointMatch_pres env store id _ (fun d d1 hu => by
        have h1 := Except.ok.inj hu
        rw [← h1])
  | restore id =>
      show idsOf (restoreDem env store id).1 = idsOf store
      unfold restoreDem
      exact endpointMatch_pres env store id _ (fun d d1 hu => by
        have h1 := Except.ok.inj hu
        rw [← h1])
  | attach id f s =>
      show idsOf (attachDoc env store id f s).1 = idsOf store
      unfold attachDoc
      exact endpointMatch_pres env store id _ (fun d d1 hu => by
        have h1 := Except.ok.inj hu
        rw [← h1]
        rfl)
  | delSummary id =>
      show idsOf (deleteDemSummary env store id).1 = idsOf store
      unfold deleteDemSummary
      exact endpointMatch_pres env store id _ (fun d d1 hu => by
        have h1 := Except.ok.inj hu
        rw [← h1])
  | create data => exact absurd hmut (by simp [OpMut])
  | deleteRec id => exact absurd hmut (by simp [OpMut])
  | imp incoming => exact absurd hmut (by simp [OpMut])

/-- The key column of the id-keyed dict. -/
def keysOf (m : List (Str × Dem)) : List Str := m.map (fun kv => kv.1)

/-- Health of the id-keyed dict built by the import: every value's id is
its key, and keys are truthy and strip-invariant. -/
def MapOk (m : List (Str × Dem)) : Prop :=
  ∀ kv ∈ m, kv.2.id = some kv.1 ∧ kv.1 ≠ [] ∧ pstrip kv.1 = kv.1

theorem upsert_keys (m : List (Str × Dem)) (k : Str) (v : Dem) :
    keysOf (upsert m k v) =
      if k ∈ keysOf m then keysOf m else keysOf m ++ [k] := by
  induction m with
  | nil =>
      have hnot : k ∉ keysOf ([] : List (Str × Dem)) := by
        intro h
        exact List.not_mem_nil k h
      rw [if_neg hnot]
      rfl
  | cons kv rest ih =>
      rcases kv with ⟨k0, v0⟩
      by_cases hk : k0 = k
      · subst hk
        have hmem : k0 ∈ keysOf ((k0, v0) :: rest) := by
          show k0 ∈ k0 :: keysOf rest
          exact List.mem_cons_self _ _
        rw [if_pos hmem]
        simp only [upsert, if_pos rfl]
        rfl
      · simp only [upsert, if_neg hk]
        show k0 :: keysOf (upsert rest k v) = _
        rw [ih]
        by_cases hmem : k ∈ keysOf rest
        · rw [if_pos hmem]
          rw [if_pos (by
            show k ∈ k0 :: keysOf rest
            exact List.mem_cons_of_mem _ hmem)]
          rfl
        · rw [if_neg hmem]
          rw [if_neg (by
            intro hin
            have hin' : k = k0 ∨ k ∈ keysOf rest := by
              have : k ∈ k0 :: keysOf rest := hin
              simpa using this
            rcases hin' with h | h
            · exact hk h.symm
            · exact hmem h)]
          rfl

theorem upsert_keysNodup (m : List (Str × Dem)) (k : Str) (v : Dem)
    (h : (keysOf m).Nodup) : (keysOf (upsert m k v)).Nodup := by
  rw [upsert_keys]
  by_cases hmem : k ∈ keysOf m
  · rw [if_pos hmem]
    exact h
  · rw [if_neg hmem]
    rw [List.nodup_append]
    refine ⟨h, List.nodup_singleton k, ?_⟩
    intro a ha hb
    rw [List.mem_singleton] at hb
    subst hb
    exact hmem ha

theorem upsert_mapOk (m : List (Str × Dem)) (k : Str) (v : Dem)
    (hm : MapOk m) (hv : v.id = some k ∧ k ≠ [] ∧ pstrip k = k) :
    MapOk (upsert m k v) := by
  induction m with
  | nil =>
      intro kv hkv
      simp [upsert] at hkv
      rw [hkv]
      exact hv
  | cons kv0 rest ih =>
      rcases kv0 with ⟨k0, v0⟩
      by_cases hk : k0 = k
      · subst hk
        intro kv hkv
        have hkv' : kv = (k0, v) ∨ kv ∈ rest := by
          simpa [upsert] using hkv
        rcases hkv' with h1 | h1
        · rw [h1]
          exact hv
        · exact hm kv (List.mem_cons_of_mem _ h1)
      · intro kv hkv
        have hkv' : kv = (k0, v0) ∨ kv ∈ upsert rest k v := by
          simpa [upsert, hk] using hkv
        rcases hkv' with h1 | h1
        · rw [h1]
          exact hm (k0, v0) (by simp)
        · exact ih (fun x hx => hm x (List.mem_cons_of_mem _ hx)) kv h1

/-- The import's base fold over the current collection preserves dict
health. -/
theorem fold_base_ok (l : List Dem) (m0 : List (Str × Dem))
    (hl : ∀ d ∈ l, truthyStr d.id = true → pstrip (d.id.getD []) = d.id.getD [])
    (hm : MapOk m0 ∧ (keysOf m0).Nodup) :
    MapOk (l.foldl
      (fun m d => if truthyStr d.id then upsert m (d.id.getD []) d else m) m0) ∧
    (keysOf (l.foldl
      (fun m d => if truthyStr d.id then upsert m (d.id.getD []) d else m) m0)).Nodup := by
  induction l generalizing m0 with
  | nil => exact hm
  | cons d rest ih =>
      rw [List.foldl_cons]
      refine ih _ (fun x hx => hl x (by simp [hx])) ?_
      by_cases ht : truthyStr d.id
      · rw [if_pos ht]
        have hid : d.id = some (d.id.getD []) := by
          rcases hd : d.id with _ | s
          · rw [hd] at ht
            simp [truthyStr] at ht
          · rfl
        have hne : d.id.getD [] ≠ [] := by
          rcases hd : d.id with _ | s
          · rw [hd] at ht
            simp [truthyStr] at ht
          · rw [hd] at ht
            simp only [Option.getD_some]
            simpa [truthyStr] using ht
        exact ⟨upsert_mapOk m0 _ d hm.1 ⟨hid, hne, hl d (by simp) ht⟩,
          upsert_keysNodup m0 _ d hm.2⟩
      · rw [if_neg ht]
        exact hm

theorem genId_ne_nil (env : Env) : genId env ≠ [] := by
  unfold genId
  simp

/-- The import's merge fold over the incoming records preserves dict
health, given strip-invariant incoming ids and a well-formed generated
id. -/
theorem fold_inc_ok (inc : List Dem) (env : Env) (m0 : List (Str × Dem))
    (hinc : ∀ d ∈ inc, truthyStr d.id = true → pstrip (d.id.getD []) = d.id.getD [])
    (hgen : pstrip (genId env) = genId env)
    (hm : MapOk m0 ∧ (keysOf m0).Nodup) :
    MapOk (inc.foldl
      (fun m i =>
        let pid0 := pstrip (i.id.getD [])
        if pid0 = [] then
          let pid := genId env
          upsert m pid { i with id := some pid }
        else upsert m pid0 i) m0) ∧
    (keysOf (inc.foldl
      (fun m i =>
        let pid0 := pstrip (i.id.getD [])
        if pid0 = [] then
          let pid := genId env
          upsert m pid { i with id := some pid }
        else upsert m pid0 i) m0)).Nodup := by
  induction inc generalizing m0 with
  | nil => exact hm
  | cons i rest ih =>
      rw [List.foldl_cons]
      refine ih _ (fun x hx => hinc x (by simp [hx])) ?_
      by_cases hp : pstrip (i.id.getD []) = []
      · simp only [hp, if_pos rfl]
        exact ⟨upsert_mapOk m0 _ _ hm.1 ⟨rfl, genId_ne_nil env, hgen⟩,
          upsert_keysNodup m0 _ _ hm.2⟩
      · simp only [if_neg hp]
        have hcond : i.id = some (pstrip (i.id.getD [])) ∧
            pstrip (i.id.getD []) ≠ [] ∧
            pstrip (pstrip (i.id.getD [])) = pstrip (i.id.getD []) := by
          rcases hd : i.id with _ | s
          · exact absurd (by rw [hd]; rfl : pstrip (i.id.getD []) = []) hp
          · have hs : s ≠ [] := by
              intro he
              apply hp
              rw [hd, he]
              rfl
            have ht : truthyStr i.id = true := by
              rw [hd]
              simpa [truthyStr] using hs
            have hstrip : pstrip s = s := by
              have h2 := hinc i (by simp) ht
              rw [hd] at h2
              simpa using h2
            simpa [Option.getD_some, hstrip] using hs
        exact ⟨upsert_mapOk m0 _ i hm.1 hcond,
          upsert_keysNodup m0 _ i hm.2⟩

/-- The import endpoint preserves store health. -/
theorem merge_good (env : Env) (store incoming : List Dem)
    (hg : GoodStore store)
    (hinc : ∀ d ∈ incoming, truthyStr d.id = true → pstrip (d.id.getD []) = d.id.getD [])
    (hgen : pstrip (genId env) = genId env) :
    GoodStore (mergeDemsJson env store incoming) := by
  have hbase := fold_base_ok store []
    (fun d hd _ => (hg.1 d hd).2) ⟨by intro kv hkv; simp at hkv, by simp [keysOf]⟩
  have hmerged := fold_inc_ok incoming env _ hinc hgen hbase
  unfold mergeDemsJson
  constructor
  · intro d hd
    obtain ⟨kv, hkv, rfl⟩ := List.mem_map.mp hd
    obtain ⟨h1, h2, h3⟩ := hmerged.1 kv hkv
    refine ⟨?_, ?_⟩
    · rw [h1]
      simpa [truthyStr] using h2
    · rw [h1]
      simpa using h3
  · have hids : idsOf ((incoming.foldl
        (fun m i =>
          let pid0 := pstrip (i.id.getD [])
          if pid0 = [] then
            let pid := genId env
            upsert m pid { i with id := some pid }
          else upsert m pid0 i)
        (store.foldl
          (fun m d => if truthyStr d.id then upsert m (d.id.getD []) d else m)
          [])).map (fun kv => kv.2)) =
        (keysOf (incoming.foldl
          (fun m i =>
            let pid0 := pstrip (i.id.getD [])
            if pid0 = [] then
              let pid := genId env
              upsert m pid { i with id := some pid }
            else upsert m pid0 i)
          (store.foldl
            (fun m d => if truthyStr d.id then upsert m (d.id.getD []) d else m)
            []))).map some := by
      unfold idsOf keysOf
      rw [List.map_map, List.map_map]
      exact List.map_congr_left (fun kv hkv => (hmerged.1 kv hkv).1)
    rw [hids]
    exact hmerged.2.map (Option.some_injective _)

/-- Stores with identical id columns are equally healthy. -/
theorem goodStore_of_ids_eq (s1 s2 : List Dem) (h : idsOf s1 = idsOf s2)
    (hg : GoodStore s2) : GoodStore s1 := by
  constructor
  · intro d hd
    have hmem : d.id ∈ idsOf s1 := List.mem_map_of_mem _ hd
    rw [h] at hmem
    obtain ⟨d0, hd0, hid⟩ := List.mem_map.mp hmem
    obtain ⟨h1, h2⟩ := hg.1 d0 hd0
    rw [← hid]
    exact ⟨h1, h2⟩
  · rw [h]
    exact hg.2

/-- `create_dem` preserves store health when the generated id is fresh
and well-formed. -/
theorem create_good (env : Env) (data : CreateData) (store : List Dem)
    (hg : GoodStore store) (hfresh : some (genId env) ∉ idsOf store)
    (hstrip : pstrip (genId env) = genId env) :
    GoodStore ((createDem env store data).1) := by
  have hids : idsOf ((createDem env store data).1) =
      idsOf store ++ [some (genId env)] := by
    show idsOf (store ++ [createRecord env data]) = _
    unfold idsOf
    rw [List.map_append]
    rfl
  constructor
  · intro d hd
    have hd2 : d ∈ store ++ [createRecord env data] := hd
    rcases List.mem_append.mp hd2 with h | h
    · exact hg.1 d h
    · have hde : d = createRecord env data := by simpa using h
      rw [hde]
      constructor
      · show truthyStr (some (genId env)) = true
        simpa [truthyStr] using genId_ne_nil env
      · show pstrip ((some (genId env)).getD []) = (some (genId env)).getD []
        simpa using hstrip
  · rw [hids]
    rw [List.nodup_append]
    refine ⟨hg.2, List.nodup_singleton _, ?_⟩
    intro a ha hb
    rw [List.mem_singleton] at hb
    subst hb
    exact hfresh ha

/-- `delete_dem` preserves store health. -/
theorem delete_good (store : List Dem) (id : Str) (hg : GoodStore store) :
    GoodStore ((deleteDem store id).1) := by
  unfold deleteDem
  by_cases hl : (store.filter (fun d => d.id ≠ some id)).length = store.length
  · rw [if_pos hl]
    exact hg
  · rw [if_neg hl]
    constructor
    · intro d hd
      exact hg.1 d (List.mem_of_mem_filter hd)
    · have hsub : List.Sublist (idsOf (store.filter (fun d => d.id ≠ some id)))
          (idsOf store) :=
        (List.filter_sublist store).map _
      exact hg.2.sublist hsub

/-- Every public operation preserves store health under its freshness
side condition. -/
theorem goodStore_applyOp (env : Env) (op : Op) (store : List Dem)
    (hg : GoodStore store) (hok : OpOk env op store) :
    GoodStore (applyOp env op store) := by
  cases op with
  | create data => exact create_good env data store hg hok.1 hok.2
  | deleteRec id => exact delete_good store id hg
  | imp incoming => exact merge_good env store incoming hg hok.1 hok.2
  | fieldUpdate id data =>
      exact goodStore_of_ids_eq _ _
        (idsOf_applyOp_mut env (Op.fieldUpdate id data) store trivial) hg
  | addNote id text =>
      exact goodStore_of_ids_eq _ _
        (idsOf_applyOp_mut env (Op.addNote id text) store trivial) hg
  | editNote id index text =>
      exact goodStore_of_ids_eq _ _
        (idsOf_applyOp_mut env (Op.editNote id index text) store trivial) hg
  | delNote id index =>
      exact goodStore_of_ids_eq _ _
        (idsOf_applyOp_mut env (Op.delNote id index) store trivial) hg
  | archive id =>
      exact goodStore_of_ids_eq _ _
        (idsOf_applyOp_mut env (Op.archive id) store trivial) hg
  | restore id =>
      exact goodStore_of_ids_eq _ _
        (idsOf_applyOp_mut env (Op.restore id) store trivial) hg
  | attach id f s =>
      exact goodStore_of_ids_eq _ _
        (idsOf_applyOp_mut env (Op.attach id f s) store trivial) hg
  | delSummary id =>
      exact goodStore_of_ids_eq _ _
        (idsOf_applyOp_mut env (Op.delSummary id) store trivial) hg

/-- Store health along any run of public operations. -/
theorem goodStore_runOps (steps : List (Env × Op)) (store : List Dem)
    (hg : GoodStore store) (hrun : RunOk steps store) :
    GoodStore (runOps steps store) := by
  induction steps generalizing store with
  | nil => exact hg
  | cons step rest ih =>
      rcases step with ⟨env, op⟩
      exact ih (applyOp env op store)
        (goodStore_applyOp env op store hg hrun.1) hrun.2

/-- An environment whose create clock stands at 7 milliseconds. -/
def envMs7 : Env := { envBoundary with nowMs := 7 }

/-- C6 counterexample: two creates under the same millisecond clock
produce two records with the SAME id `dem_7` — the code never checks a
generated id against the store, so id uniqueness is not an invariant of
the reachable states as claimed. -/
theorem c6_unique_ids_counterexample :
    idsOf (runOps [(envMs7, Op.create {}), (envMs7, Op.create {})] []) =
      [some ("dem_7".toList), some ("dem_7".toList)] ∧
    ¬ (idsOf (runOps [(envMs7, Op.create {}), (envMs7, Op.create {})] [])).Nodup := by
  constructor
  · rfl
  · decide

/-- C6 (amended): no public operation ever rewrites the id of an existing
record (the in-place mutation endpoints preserve the id column exactly),
and id uniqueness holds in every reachable state PROVIDED each create
draws a fresh, whitespace-clean id and every imported id equals its
stripped form — timestamp collisions between creates, which the code
does not guard against, are the only way to break it. -/
theorem c6_id_immutable_unique :
    GoodStore [] ∧
    (∀ env op store, GoodStore store → OpOk env op store →
      GoodStore (applyOp env op store)) ∧
    (∀ steps store, GoodStore store → RunOk steps store →
      GoodStore (runOps steps store)) ∧
    (∀ env op store, OpMut op → idsOf (applyOp env op store) = idsOf store) := by
  refine ⟨?_, goodStore_applyOp, goodStore_runOps, idsOf_applyOp_mut⟩
  constructor
  · intro d hd
    exact absurd hd (List.not_mem_nil d)
  · exact List.nodup_nil

/-- Concrete instantiation of `c6_id_immutable_unique`: a create followed
by an archive of a fresh store keeps ids unique, and the archive leaves
the id column untouched. -/
theorem c6_id_immutable_unique_witness :
    GoodStore (runOps [(envMs7, Op.create {}),
      (envMs7, Op.archive ("dem_7".toList))] []) ∧
    idsOf (applyOp envMs7 (Op.archive ("dem_7".toList))
      (applyOp envMs7 (Op.create {}) [])) =
      idsOf (applyOp envMs7 (Op.create {}) []) := by
  constructor
  · refine (c6_id_immutable_unique).2.2.1
      [(envMs7, Op.create {}), (envMs7, Op.archive ("dem_7".toList))] []
      (c6_id_immutable_unique).1 ⟨?_, ?_, trivial⟩
    · constructor
      · decide
      · decide
    · trivial
  · exact (c6_id_immutable_unique).2.2.2 envMs7 (Op.archive ("dem_7".toList))
      (applyOp envMs7 (Op.create {}) []) trivial

end IACHAT
